import Mathlib

/-!
# Verification of the FCP volume manager (`zvmsdk/volumeop.py`)

This file gives a shallow embedding of the FCP resource-pool manager and
the attach/detach orchestration engine of `src/zvmsdk/volumeop.py`, and
proves properties of that embedding.

Modelling conventions:
* Python dictionaries and database tables are modelled as association
  lists (`List (key × value)`).
* Python sets of device addresses are modelled as duplicate-free
  `List String` values built with membership-checking insertion.
* The persisted store (`zvmsdk/database.py`, class `FCPDbOperator`) is
  not part of the source tree; its operations are modelled from the
  specification's persisted-store contract (each such definition carries
  a doc comment saying so).
* External collaborators (smtclient, configurator, host queries) are
  modelled by an explicit context `Ctx` of oracles; the guest-visible
  actions they would perform are recorded in an `Action` trace.
* Exceptions are modelled with `Except` / explicit `raised` flags.
-/

namespace VolumeOp

/-! ## String primitives

Structurally recursive counterparts of the Python string methods used
by the source (`split`, `strip`, `replace(' ','')`, `lower`, `upper`),
so that concrete runs reduce inside the kernel. -/

/-- Auxiliary accumulator version of single-character split. -/
def splitOnCharAux (sep : Char) : List Char → List Char → List String
  | [], acc => [acc.reverse.asString]
  | c :: rest, acc =>
    if c = sep then acc.reverse.asString :: splitOnCharAux sep rest []
    else splitOnCharAux sep rest (c :: acc)

/-- Python `s.split(sep)` for a one-character separator (also the
behavior of `re`-free `String.splitOn`): `""` yields `[""]`. -/
def splitOnChar (s : String) (sep : Char) : List String :=
  splitOnCharAux sep s.toList []

/-- Whitespace as stripped by Python `str.strip()`. -/
def isStripChar (c : Char) : Bool :=
  c = ' ' || c = '\t' || c = '\n' || c = '\x0d' ||
    c = Char.ofNat 11 || c = Char.ofNat 12

/-- Python `s.strip()`. -/
def pyStrip (s : String) : String :=
  (((s.toList.dropWhile isStripChar).reverse.dropWhile isStripChar).reverse).asString

/-- Python `s.replace(' ', '')`. -/
def removeSpaces (s : String) : String :=
  (s.toList.filter (fun c => ¬ c = ' ')).asString

/-- Python `s.lower()` (ASCII case, which covers all inputs here). -/
def pyLower (s : String) : String :=
  (s.toList.map Char.toLower).asString

/-- Python `s.upper()` (ASCII case). -/
def pyUpper (s : String) : String :=
  (s.toList.map Char.toUpper).asString

/-! ## Hex-string helpers (Python `int(x, 16)` and `"%04x" % n`) -/

/-- One lowercase hex digit, as produced by Python's `"%x"` formatting. -/
def hexDigitChar (n : Nat) : Char :=
  if n < 10 then Char.ofNat (48 + n) else Char.ofNat (87 + n)

/-- `"%04x" % n` for `n < 0x10000`: four zero-padded lowercase hex digits. -/
def hex4 (n : Nat) : String :=
  String.mk [hexDigitChar (n / 4096 % 16), hexDigitChar (n / 256 % 16),
             hexDigitChar (n / 16 % 16), hexDigitChar (n % 16)]

/-- Value of a single hex digit (0 for non-hex characters; only applied
to validated hex digits). -/
def hexDigitVal (c : Char) : Nat :=
  if c.isDigit then c.toNat - 48
  else if 'a' ≤ c ∧ c ≤ 'f' then c.toNat - 87
  else if 'A' ≤ c ∧ c ≤ 'F' then c.toNat - 55
  else 0

/-- Python `int(s, 16)` on a validated hex token. -/
def hexVal (s : String) : Nat :=
  s.toList.foldl (fun v c => v * 16 + hexDigitVal c) 0

/-! ## The expansion grammar of `FCPManager._expand_fcp_list`

The source validates the configuration string against two anchored
regular expressions built from
`range = [0-9a-fA-F]{1,4}(-[0-9a-fA-F]{1,4})?`:

* `match_pattern = ^(range)(;range;?)*$`
* `item = (range)(,range?)*` and
  `multi_match_pattern = ^(item)(;item;?)*$`

Since the separator characters `;`, `,`, `-` are not hex digits, a full
string matches these patterns exactly when its `;`-split decomposes as
below; the recognizers implement that decomposition. -/

/-- Hex digit character class `[0-9a-fA-F]`. -/
def isHexChar (c : Char) : Bool :=
  c.isDigit || ('a' ≤ c && c ≤ 'f') || ('A' ≤ c && c ≤ 'F')

/-- `[0-9a-fA-F]{1,4}` as a whole-token matcher. -/
def hex14 (s : String) : Bool :=
  decide (1 ≤ s.length) && decide (s.length ≤ 4) && s.toList.all isHexChar

/-- The `range` fragment as a whole-token matcher: `h{1,4}` or
`h{1,4}-h{1,4}`. -/
def isRangeTok (s : String) : Bool :=
  match splitOnChar s '-' with
  | [a] => hex14 a
  | [a, b] => hex14 a && hex14 b
  | _ => false

/-- The `item` fragment `(range)(,range?)*` as a whole-token matcher.
Note the `?` that the source appends binds to the final `?`-group of the
expanded range pattern (making it lazy), not to the whole range, so each
comma must be followed by a full range: the item language is
`range (, range)*`. -/
def isItemTok (s : String) : Bool :=
  match splitOnChar s ',' with
  | [] => false
  | parts => parts.all isRangeTok

/-- Tail of the `;`-split against `(;tok;?)*`: a sequence of tokens in
which each token may be followed by one empty segment (the optional
`;` of that iteration). -/
def segsTail (tok : String → Bool) : List String → Bool
  | [] => true
  | [s] => tok s
  | s :: "" :: rest => tok s && segsTail tok rest
  | s :: rest => tok s && segsTail tok rest

/-- Whole-string match of `^(tok)(;tok;?)*$` via the `;`-split. -/
def segsMatch (tok : String → Bool) (s : String) : Bool :=
  match splitOnChar s ';' with
  | [] => false
  | h :: rest => tok h && segsTail tok rest

/-- `re.match(match_pattern, s)` of the source. -/
def matchesSingle (s : String) : Bool := segsMatch isRangeTok s

/-- `re.match(multi_match_pattern, s)` of the source. -/
def matchesMulti (s : String) : Bool := segsMatch isItemTok s

/-! ## Expansion proper -/

/-- Membership-checking insertion: `Python set.add`. -/
def listInsert (l : List String) (x : String) : List String :=
  if x ∈ l then l else l ++ [x]

/-- `Python set.update` / union. -/
def listUnion (a b : List String) : List String :=
  b.foldl listInsert a

/-- Expansion of a single comma-item: a single address `aaaa`, or an
inclusive range `aaaa-bbbb` (empty when the lower bound exceeds the
upper bound, like Python's `range`).  A token with two or more `-` is
unreachable after grammar validation. -/
def expandItem (item : String) : List String :=
  match splitOnChar item '-' with
  | [a] => [hex4 (hexVal a)]
  | [a, b] => (List.range (hexVal b + 1 - hexVal a)).map (fun i => hex4 (hexVal a + i))
  | _ => []

/-- Look up a path entry of the under-construction mapping
(`fcp_devices.get(path_no)`). -/
def mapGet (m : List (Nat × List String)) (p : Nat) : Option (List String) :=
  (m.find? (fun kv => kv.1 == p)).map (·.2)

/-- Set a path entry of the under-construction mapping
(`fcp_devices[path_no] = devices`), replacing an existing entry. -/
def mapSet (m : List (Nat × List String)) (p : Nat) (v : List String) :
    List (Nat × List String) :=
  if (m.find? (fun kv => kv.1 == p)).isSome then
    m.map (fun kv => if kv.1 == p then (p, v) else kv)
  else m ++ [(p, v)]

/-- One comma-item of one `;`-segment, acting on the whole mapping:
skip empty items; otherwise union the item's devices into the path's
entry when that entry exists and is nonempty (`if fcp_devices.get(path_no)`),
else assign it. -/
def itemStep (p : Nat) (m : List (Nat × List String)) (item : String) :
    List (Nat × List String) :=
  if item == "" then m
  else
    let devices := expandItem item
    match mapGet m p with
    | some s => if s ≠ [] then mapSet m p (listUnion s devices) else mapSet m p devices
    | none => mapSet m p devices

/-- All comma-items of one `;`-segment. -/
def segStep (m : List (Nat × List String)) (p : Nat) (items : List String) :
    List (Nat × List String) :=
  items.foldl (itemStep p) m

/-- `FCPManager._expand_fcp_list` (volumeop.py:455-519).  Returns the
mapping path-index → device set, or the `SDKInternalError` message.
A falsy input returns an empty collection (the source returns `set()`). -/
def _expand_fcp_list (fcp_list : String) : Except String (List (Nat × List String)) :=
  if fcp_list = "" then .ok []
  else
    let s := removeSpaces (pyStrip fcp_list)
    if ¬ (matchesSingle s ∨ matchesMulti s) then
      .error ("Invalid FCP address " ++ s)
    else
      let segs := splitOnChar s ';'
      .ok (segs.foldl
        (fun acc seg => (segStep acc.1 acc.2 (splitOnChar seg ','), acc.2 + 1))
        (([] : List (Nat × List String)), 0)).1

/-! ## Association-list helpers (Python `dict`) -/

/-- `d.get(k)` on an association list. -/
def assocGet {β : Type} (m : List (String × β)) (k : String) : Option β :=
  (m.find? (fun kv => kv.1 == k)).map (·.2)

/-- `d[k] = v` on an association list: replace an existing entry in
place, otherwise append. -/
def assocSet {β : Type} (m : List (String × β)) (k : String) (v : β) :
    List (String × β) :=
  if (m.find? (fun kv => kv.1 == k)).isSome then
    m.map (fun kv => if kv.1 == k then (k, v) else kv)
  else m ++ [(k, v)]

/-! ## The persisted store

`zvmsdk/database.py` (class `FCPDbOperator`) is not part of the source
tree.  Its operations are modelled from the specification's
persisted-store contract (spec §3 "Persisted FCP Record", §4.4 "Usage
counters", §6 "Persisted store contract"). -/

/-- Modelled from the spec: one persisted FCP record, keyed by device
address — owning assigner identity, reserved flag, connection count
(non-negative integer), path index. -/
structure FcpRec where
  assigner_id : String
  reserved : Bool
  connections : Nat
  path : Nat
deriving DecidableEq, Repr

/-- The persisted store: a table of FCP records keyed by device address. -/
abbrev Store := List (String × FcpRec)

namespace Store

/-- Record lookup by device address. -/
def find? (st : Store) (fcp : String) : Option FcpRec := assocGet st fcp

/-- Update the record of `fcp` in place (SQL `UPDATE`: a no-op when no
record matches). -/
def modifyRec (st : Store) (fcp : String) (f : FcpRec → FcpRec) : Store :=
  st.map (fun kv => if kv.1 == fcp then (kv.1, f kv.2) else kv)

/-- Modelled from the spec: get-connection-count; a device without a
record has no connections. -/
def get_connections_from_fcp (st : Store) (fcp : String) : Nat :=
  ((st.find? fcp).map (·.connections)).getD 0

/-- Modelled from the spec: assign-to-assigner, with or without
incrementing the connection count ("assign-or-increment ...
transactionally"; `update_connections=False` "marks the device assigned
... without incrementing connection count"). -/
def assign (st : Store) (fcp : String) (assigner_id : String)
    (update_connections : Bool) : Store :=
  st.modifyRec fcp (fun r =>
    { r with assigner_id := assigner_id,
             connections := if update_connections then r.connections + 1
                            else r.connections })

/-- Modelled from the spec: increase usage by device. -/
def increase_usage (st : Store) (fcp : String) : Store :=
  st.modifyRec fcp (fun r => { r with connections := r.connections + 1 })

/-- Modelled from the spec: increase usage by device and assigner. -/
def increase_usage_by_assigner (st : Store) (fcp : String)
    (_assigner_id : String) : Store :=
  st.modifyRec fcp (fun r => { r with connections := r.connections + 1 })

/-- Modelled from the spec: decrement the connection count and return
the resulting count; raises (`SDKObjectNotExistError`) when the record
is missing or "the connections already are 0 before decreasing"
(volumeop.py:943-946). -/
def decrease_usage (st : Store) (fcp : String) : Except Unit (Store × Nat) :=
  match st.find? fcp with
  | none => .error ()
  | some r =>
    if r.connections = 0 then .error ()
    else .ok (st.modifyRec fcp (fun r => { r with connections := r.connections - 1 }),
              r.connections - 1)

/-- Modelled from the spec: set the reserved flag. -/
def reserve (st : Store) (fcp : String) : Store :=
  st.modifyRec fcp (fun r => { r with reserved := true })

/-- Modelled from the spec: clear the reserved flag only (does not touch
connections). -/
def unreserve (st : Store) (fcp : String) : Store :=
  st.modifyRec fcp (fun r => { r with reserved := false })

/-- Modelled from the spec: get-reservation-flag; falsy when no record
matches. -/
def is_reserved (st : Store) (fcp : String) : Bool :=
  ((st.find? fcp).map (·.reserved)).getD false

/-- Modelled from the spec: create a new record at a path index (fresh
records are unassigned, unreserved, with zero connections); an `INSERT`
conflicting with an existing record fails and changes nothing. -/
def new (st : Store) (fcp : String) (path : Nat) : Store :=
  if (st.find? fcp).isSome then st
  else st ++ [(fcp, { assigner_id := "", reserved := false, connections := 0, path := path })]

/-- Modelled from the spec: delete a record. -/
def delete (st : Store) (fcp : String) : Store :=
  st.filter (fun kv => ¬ kv.1 == fcp)

/-- Modelled from the spec: update a record's path index. -/
def update_path_of_fcp (st : Store) (fcp : String) (path : Nat) : Store :=
  st.modifyRec fcp (fun r => { r with path := path })

/-- Modelled from the spec: get-by-assigner, reserved records. -/
def get_reserved_fcps_from_assigner (st : Store) (assigner_id : String) :
    List (String × FcpRec) :=
  st.filter (fun kv => kv.2.assigner_id == assigner_id && kv.2.reserved)

/-- Modelled from the spec: get-by-assigner, allocated records (devices
the assigner holds, by reservation or by active connections). -/
def get_allocated_fcps_from_assigner (st : Store) (assigner_id : String) :
    List (String × FcpRec) :=
  st.filter (fun kv =>
    kv.2.assigner_id == assigner_id && (kv.2.reserved || !(kv.2.connections == 0)))

end Store

/-! ## Device descriptors (`class FCP`) -/

/-- Parsed FCP device descriptor (volumeop.py:314-381).  Fields are
`Option` because a malformed block leaves them unset (`None`). -/
structure FCPdev where
  dev_no : Option String
  dev_status : Option String
  npiv_port : Option String
  chpid : Option String
  physical_port : Option String
deriving DecidableEq, Repr

/-- Last `:`-field of a descriptor line, stripped. -/
def lastColonField (line : String) : String :=
  pyStrip (((splitOnChar line ':').getLast?).getD "")

/-- `FCP._get_wwpn_from_line`: lowercase WWPN, `None` when empty or
`NONE`. -/
def wwpnFromLine (line : String) : Option String :=
  let wwpn := pyLower (lastColonField line)
  if wwpn ≠ "" ∧ pyUpper wwpn ≠ "NONE" then some wwpn else none

/-- `FCP._get_dev_number_from_line`. -/
def devNumberFromLine (line : String) : Option String :=
  let dev_no := pyLower (lastColonField line)
  if dev_no ≠ "" then some dev_no else none

/-- `FCP._get_dev_status_from_line`. -/
def devStatusFromLine (line : String) : Option String :=
  let dev_status := pyLower (lastColonField line)
  if dev_status ≠ "" then some dev_status else none

/-- `FCP._get_chpid_from_line`. -/
def chpidFromLine (line : String) : Option String :=
  let chpid := pyUpper (lastColonField line)
  if chpid ≠ "" then some chpid else none

/-- `FCP._parse`: a descriptor is built only from a 5-line block; other
shapes leave every field unset. -/
def parseFCP (init_info : List String) : FCPdev :=
  match init_info with
  | [l0, l1, l2, l3, l4] =>
    { dev_no := devNumberFromLine l0
      dev_status := devStatusFromLine l1
      npiv_port := wwpnFromLine l2
      chpid := chpidFromLine l3
      physical_port := wwpnFromLine l4 }
  | _ => { dev_no := none, dev_status := none, npiv_port := none,
           chpid := none, physical_port := none }

/-- Split the inventory response into 5-line blocks, dropping a
trailing partial block (`num_fcps = len(fcp_info) // 5`). -/
def chunks5 : List String → List (List String)
  | a :: b :: c :: d :: e :: rest => [a, b, c, d, e] :: chunks5 rest
  | _ => []

/-- The in-memory pool `_fcp_pool`: device address → descriptor. -/
abbrev Pool := List (String × FCPdev)

/-- Pool keys (`self._fcp_pool.keys()`). -/
def poolKeys (pool : Pool) : List String := pool.map (·.1)

/-- Pool lookup (`self._fcp_pool.get(dev_no)`). -/
def poolFind? (pool : Pool) (k : String) : Option FCPdev := assocGet pool k

/-! ## External collaborators and manager state -/

/-- Result codes carried by a caught remote error
(`err.results['rc']`, `err.results['rs']`). -/
structure ErrRes where
  rc : Nat
  rs : Nat
deriving DecidableEq, Repr

/-- The external collaborators of one top-level operation: the
configuration surface, the smtclient inventory/transport, the guest
configurator, and the store's pairing queries.  Failures of remote
actions are injected through the `*_ok` / `*_err` oracles. -/
structure Ctx where
  /-- `CONF.volume.fcp_list`. -/
  conf_fcp_list : String
  /-- 5-line blocks returned by `get_fcp_info_by_status(userid, 'free')`. -/
  free_fcp_info : List String
  /-- 5-line blocks returned by `get_fcp_info_by_status(userid, 'active')`. -/
  active_fcp_info : List String
  /-- Whether `dedicate_device` succeeds for a device. -/
  dedicate_ok : String → Bool
  /-- Whether `config_attach` (guest-side configuration) succeeds. -/
  add_disks_ok : Bool
  /-- Error raised by `config_detach`, if any. -/
  remove_disks_err : Option ErrRes
  /-- Error raised by `undedicate_device` for a device, if any. -/
  undedicate_err : String → Option ErrRes
  /-- `zvmutils.check_userid_exist(assigner_id)`. -/
  userid_exists : Bool
  /-- `zvmutils.get_lpar_name()`. -/
  lpar_name : String
  /-- `CONF.volume.get_fcp_pair_with_same_index`. -/
  same_index_conf : Bool
  /-- Modelled from the spec: the store's same-index pairing query
  (`db.get_fcp_pair_with_same_index`), a store-defined selection. -/
  pair_same_index : Store → List String
  /-- Modelled from the spec: the store's free cross-product pairing
  query (`db.get_fcp_pair`), a store-defined selection. -/
  pair_free : Store → List String

/-- The mutable state of `FCPManager` plus its store handle. -/
structure MgrState where
  fcp_pool : Pool
  path_mapping : List (Nat × List String)
  store : Store
deriving Repr

/-- Guest- or hypervisor-visible actions issued by the orchestrators. -/
inductive Action
  | dedicate (fcp : String) (assigner_id : String)
  | undedicate (fcp : String) (assigner_id : String)
  | configAttach (fcp_list : List String) (assigner_id : String)
  | configDetach (fcp_list : List String) (assigner_id : String)
deriving DecidableEq, Repr

/-! ## `FCPManager`: pool construction and synchronization -/

/-- Persisted-store mutations, for stating synchronization claims. -/
inductive Mut
  | delete (fcp : String)
  | new (fcp : String) (path : Nat)
  | updatePath (fcp : String) (path : Nat)
deriving DecidableEq, Repr

namespace FCPManager

/-- `FCPManager._init_fcp_pool` (volumeop.py:407-453): expand the
configured list, then build the pool from the 5-line blocks of the live
inventory, keeping only devices in the configured address set.  The
path mapping is replaced; pool entries accumulate over the existing
dictionary. -/
def _init_fcp_pool (conf : String) (fcp_info : List String) (ms : MgrState) :
    Except String MgrState :=
  match _expand_fcp_list conf with
  | .error e => .error e
  | .ok mapping =>
    let complete_fcp_set := mapping.foldl (fun acc kv => listUnion acc kv.2) []
    let pool := (chunks5 fcp_info).foldl (fun pool chunk =>
      let fcp := parseFCP chunk
      match fcp.dev_no with
      | some dev_no =>
        if dev_no ∈ complete_fcp_set then assocSet pool dev_no fcp else pool
      | none => pool) ms.fcp_pool
    .ok { ms with fcp_pool := pool, path_mapping := mapping }

/-- `FCPManager._report_orphan_fcp` (volumeop.py:521-529): delete a
record absent from the pool unless it is reserved. -/
def _report_orphan_fcp (st : Store) (fcp : String) : Store × List Mut :=
  if ¬ st.is_reserved fcp then (st.delete fcp, [.delete fcp]) else (st, [])

/-- `FCPManager._add_fcp` (volumeop.py:531-542): add a configured FCP to
the store when its live status is free; any failure (including a pool
lookup miss) is swallowed. -/
def _add_fcp (pool : Pool) (st : Store) (fcp : String) (path : Nat) :
    Store × List Mut :=
  match poolFind? pool fcp with
  | some dev =>
    if dev.dev_status = some "free" then
      if (st.find? fcp).isSome then (st, [])
      else (st.new fcp path, [.new fcp path])
    else (st, [])
  | none => (st, [])

/-- Orphan pass of `_sync_db_fcp_list`: iterate over the snapshot of
`db.get_all()`, reporting records whose (lowercased) address is not a
pool key. -/
def syncOrphans (pool_keys : List String) : List (String × FcpRec) → Store → Store × List Mut
  | [], st => (st, [])
  | (k, _) :: rest, st =>
    if pyLower k ∈ pool_keys then syncOrphans pool_keys rest st
    else
      let (st1, m1) := _report_orphan_fcp st k
      let (st2, m2) := syncOrphans pool_keys rest st1
      (st2, m1 ++ m2)

/-- One configured FCP of one path in `_sync_db_fcp_list`: add missing
records, update a changed path index. -/
def syncFcp (pool : Pool) (path : Nat) (st : Store) (fcp : String) : Store × List Mut :=
  if pyLower fcp ∈ poolKeys pool then
    match st.find? fcp with
    | none => _add_fcp pool st fcp path
    | some rec =>
      if rec.path ≠ path then
        (st.update_path_of_fcp fcp path, [.updatePath fcp path])
      else (st, [])
  else (st, [])

/-- All FCPs of one path. -/
def syncPathList (pool : Pool) (path : Nat) : List String → Store → Store × List Mut
  | [], st => (st, [])
  | fcp :: rest, st =>
    let (st1, m1) := syncFcp pool path st fcp
    let (st2, m2) := syncPathList pool path rest st1
    (st2, m1 ++ m2)

/-- Second pass of `_sync_db_fcp_list` over the path mapping. -/
def syncMapping (pool : Pool) : List (Nat × List String) → Store → Store × List Mut
  | [], st => (st, [])
  | (path, fcps) :: rest, st =>
    let (st1, m1) := syncPathList pool path fcps st
    let (st2, m2) := syncMapping pool rest st1
    (st2, m1 ++ m2)

/-- `FCPManager._sync_db_fcp_list` (volumeop.py:544-564): reconcile
persisted records with the in-memory pool and path mapping, returning
the new store and the persisted-store mutations performed. -/
def _sync_db_fcp_list (pool : Pool) (mapping : List (Nat × List String))
    (st : Store) : Store × List Mut :=
  let (st1, m1) := syncOrphans (poolKeys pool) st st
  let (st2, m2) := syncMapping pool mapping st1
  (st2, m1 ++ m2)

/-- `FCPManager.init_fcp` (volumeop.py:394-405): no-op when the
configured list is empty, otherwise build the pool and synchronize the
store. -/
def init_fcp (ctx : Ctx) (ms : MgrState) : Except String (MgrState × List Mut) :=
  if ctx.conf_fcp_list = "" then .ok (ms, [])
  else
    match _init_fcp_pool ctx.conf_fcp_list (ctx.free_fcp_info ++ ctx.active_fcp_info) ms with
    | .error e => .error e
    | .ok ms1 =>
      let (st2, muts) := _sync_db_fcp_list ms1.fcp_pool ms1.path_mapping ms1.store
      .ok ({ ms1 with store := st2 }, muts)

/-! ### Usage counters and queries -/

/-- `FCPManager.increase_fcp_usage` (volumeop.py:608-622): assign the
device on first use, else increment; returns whether this was first
use. -/
def increase_fcp_usage (st : Store) (fcp : String) (assigner_id : String) :
    Store × Bool :=
  let connections := st.get_connections_from_fcp fcp
  if connections = 0 then (st.assign fcp assigner_id true, true)
  else (st.increase_usage fcp, false)

/-- `FCPManager.add_fcp_for_assigner` (volumeop.py:624-638): assign the
device on first use, else increment by assigner; returns whether this
was first use. -/
def add_fcp_for_assigner (st : Store) (fcp : String) (assigner_id : String) :
    Store × Bool :=
  let connections := st.get_connections_from_fcp fcp
  if connections = 0 then (st.assign fcp assigner_id true, true)
  else (st.increase_usage_by_assigner fcp assigner_id, false)

/-- `FCPManager.decrease_fcp_usage` (volumeop.py:640-644). -/
def decrease_fcp_usage (st : Store) (fcp : String) : Except Unit (Store × Nat) :=
  st.decrease_usage fcp

/-- `FCPManager.unreserve_fcp` (volumeop.py:646-648). -/
def unreserve_fcp (st : Store) (fcp : String) : Store :=
  st.unreserve fcp

/-- `FCPManager.is_reserved` (volumeop.py:650-651): the store is
queried but the result is discarded — the Python function has no
`return`, so the caller always receives `None`. -/
def is_reserved (st : Store) (fcp : String) : Option Bool :=
  let _ := Store.is_reserved st fcp
  none

/-- `FCPManager.get_wwpn` (volumeop.py:723-733): NPIV port if present,
else physical port, else none. -/
def get_wwpn (pool : Pool) (fcp_no : String) : Option String :=
  match poolFind? pool fcp_no with
  | none => none
  | some fcp =>
    match fcp.npiv_port with
    | some npiv => some npiv
    | none => fcp.physical_port

/-- `FCPManager.get_physical_wwpn` (volumeop.py:759-764). -/
def get_physical_wwpn (pool : Pool) (fcp_no : String) : Option String :=
  match poolFind? pool fcp_no with
  | none => none
  | some fcp => fcp.physical_port

/-- `FCPManager.get_all_fcp_pool` (volumeop.py:735-745): parse all live
blocks without the configured-list filter.  (Python would key a
descriptor without device number under `None`; such an entry can never
be retrieved by a device-address lookup, so it is skipped here.) -/
def get_all_fcp_pool (fcp_info : List String) : Pool :=
  (chunks5 fcp_info).foldl (fun pool chunk =>
    let fcp := parseFCP chunk
    match fcp.dev_no with
    | some dev_no => assocSet pool dev_no fcp
    | none => pool) []

/-- `FCPManager.get_wwpn_for_fcp_not_in_conf` (volumeop.py:747-757). -/
def get_wwpn_for_fcp_not_in_conf (all_fcp_pool : Pool) (fcp_no : String) :
    Option String :=
  match poolFind? all_fcp_pool fcp_no with
  | none => none
  | some fcp =>
    match fcp.npiv_port with
    | some npiv => some npiv
    | none => fcp.physical_port

/-- `FCPManager.get_available_fcp` (volumeop.py:653-721): in unreserve
mode return the assigner's reserved devices verbatim; in reserve mode
reuse the assigner's allocated devices, else allocate a fresh set from
the configured pairing query and mark each assigned without
incrementing connections. -/
def get_available_fcp (ctx : Ctx) (st : Store) (assigner_id : String)
    (reserve : Bool) : Store × List String :=
  if ¬ reserve then
    (st, (st.get_reserved_fcps_from_assigner assigner_id).map (·.1))
  else
    let fcp_list := st.get_allocated_fcps_from_assigner assigner_id
    if fcp_list.isEmpty then
      let free_unreserved :=
        if ctx.same_index_conf then ctx.pair_same_index st else ctx.pair_free st
      let st' := free_unreserved.foldl
        (fun st item => st.assign item assigner_id false) st
      (st', free_unreserved)
    else (st, fcp_list.map (·.1))

end FCPManager

/-! ## `FCPVolumeManager`: the attach/detach orchestrators -/

/-- Outcome of one orchestrated operation: the final manager state, the
trace of guest/hypervisor actions issued, and whether an exception
propagated to the caller. -/
structure OpOut where
  ms : MgrState
  actions : List Action
  raised : Bool
deriving Repr

namespace FCPVolumeManager

/-- Decrease pass of `_rollback_dedicated_fcp` (volumeop.py:788-793):
decrease usage of each device (errors ignored) and undedicate it when
the count reaches zero. -/
def rollbackDecreaseLoop (assigner_id : String) : List String → Store → Store × List Action
  | [], st => (st, [])
  | fcp :: rest, st =>
    match FCPManager.decrease_fcp_usage st fcp with
    | .error _ => rollbackDecreaseLoop assigner_id rest st
    | .ok (st', connections) =>
      let (st2, acts) := rollbackDecreaseLoop assigner_id rest st'
      if connections = 0 then (st2, .undedicate fcp assigner_id :: acts)
      else (st2, acts)

/-- Unreserve pass of `_rollback_dedicated_fcp` (volumeop.py:794-799). -/
def rollbackUnreserveLoop : List String → Store → Store
  | [], st => st
  | fcp :: rest, st =>
    if st.get_connections_from_fcp fcp = 0 then
      rollbackUnreserveLoop rest (st.unreserve fcp)
    else rollbackUnreserveLoop rest st

/-- `FCPVolumeManager._rollback_dedicated_fcp` (volumeop.py:785-799):
for every device of the request decrease usage (errors ignored) and
undedicate it when the count reaches zero; then unreserve every device
of the candidate set without connections. -/
def _rollback_dedicated_fcp (st : Store) (fcp_list : List String)
    (assigner_id : String) (all_fcp_list : List String) : Store × List Action :=
  let (st1, acts) := rollbackDecreaseLoop assigner_id fcp_list st
  (rollbackUnreserveLoop all_fcp_list st1, acts)

/-- Usage-increment pass of `_attach` (volumeop.py:819-822), building
`fcp_status`. -/
def addLoopGo (assigner_id : String) :
    List String → Store × List (String × Bool) → Store × List (String × Bool)
  | [], acc => acc
  | fcp :: rest, acc =>
    let (st', new) := FCPManager.add_fcp_for_assigner acc.1 fcp assigner_id
    addLoopGo assigner_id rest (st', assocSet acc.2 fcp new)

def addLoop (assigner_id : String) (fcp_list : List String) (st : Store) :
    Store × List (String × Bool) :=
  addLoopGo assigner_id fcp_list (st, [])

/-- Dedicate pass of `_attach` (volumeop.py:833-844): dedicate the
first-attached devices in order; stops at the first failure. -/
def dedicateLoop (ctx : Ctx) (assigner_id : String)
    (fcp_status : List (String × Bool)) : List String → List Action × Bool
  | [] => ([], true)
  | fcp :: rest =>
    if (assocGet fcp_status fcp).getD false then
      if ctx.dedicate_ok fcp then
        let (acts, ok) := dedicateLoop ctx assigner_id fcp_status rest
        (.dedicate fcp assigner_id :: acts, ok)
      else ([.dedicate fcp assigner_id], false)
    else dedicateLoop ctx assigner_id fcp_status rest

/-- `FCPVolumeManager._attach` (volumeop.py:801-857): synchronize the
pool, register usage, stop after bookkeeping for a root volume,
otherwise dedicate first-attached devices and configure the guest;
failure triggers `_rollback_dedicated_fcp` and re-raises. -/
def _attach (ctx : Ctx) (ms : MgrState) (fcp_list : List String)
    (assigner_id : String) (is_root_volume : Bool) : OpOut :=
  match FCPManager.init_fcp ctx ms with
  | .error _ => { ms := ms, actions := [], raised := true }
  | .ok (ms1, _) =>
    let (st2, fcp_status) := addLoop assigner_id fcp_list ms1.store
    let ms2 := { ms1 with store := st2 }
    if is_root_volume then { ms := ms2, actions := [], raised := false }
    else
      let (dedicate_acts, dedicate_ok) := dedicateLoop ctx assigner_id fcp_status fcp_list
      if dedicate_ok then
        let acts := dedicate_acts ++ [.configAttach fcp_list assigner_id]
        if ctx.add_disks_ok then { ms := ms2, actions := acts, raised := false }
        else
          let (st3, racts) := _rollback_dedicated_fcp st2 fcp_list assigner_id fcp_list
          { ms := { ms2 with store := st3 }, actions := acts ++ racts, raised := true }
      else
        let (st3, racts) := _rollback_dedicated_fcp st2 fcp_list assigner_id fcp_list
        { ms := { ms2 with store := st3 }, actions := dedicate_acts ++ racts, raised := true }

/-- Usage-decrement pass of `_detach` (volumeop.py:938-951), building
`fcp_connections` and `need_rollback`. -/
def decreaseLoopGo :
    List String → Store × List (String × Nat) × List (String × Bool) →
      Store × List (String × Nat) × List (String × Bool)
  | [], acc => acc
  | fcp :: rest, acc =>
    match FCPManager.decrease_fcp_usage acc.1 fcp with
    | .ok (st', connections) =>
      decreaseLoopGo rest (st', assocSet acc.2.1 fcp connections, assocSet acc.2.2 fcp true)
    | .error _ =>
      decreaseLoopGo rest (acc.1, assocSet acc.2.1 fcp 0, assocSet acc.2.2 fcp false)

def decreaseLoop (fcp_list : List String) (st : Store) :
    Store × List (String × Nat) × List (String × Bool) :=
  decreaseLoopGo fcp_list (st, [], [])

/-- Undedicate pass of `_detach` (volumeop.py:977-986): undedicate the
devices whose recorded connection count is zero; stops at the first
failure, whose error is reported. -/
def undedicateLoop (ctx : Ctx) (assigner_id : String)
    (fcp_connections : List (String × Nat)) :
    List String → List Action × Option ErrRes
  | [] => ([], none)
  | fcp :: rest =>
    if (assocGet fcp_connections fcp).getD 0 = 0 then
      match ctx.undedicate_err fcp with
      | none =>
        let (acts, err) := undedicateLoop ctx assigner_id fcp_connections rest
        (.undedicate fcp assigner_id :: acts, err)
      | some e => ([.undedicate fcp assigner_id], some e)
    else undedicateLoop ctx assigner_id fcp_connections rest

/-- Rollback of `_detach`'s failure branch (volumeop.py:997-1007):
re-increment usage of every rollback-eligible device. -/
def rollbackConnections (assigner_id : String)
    (need_rollback : List (String × Bool)) : List String → Store → Store
  | [], st => st
  | fcp :: rest, st =>
    if (assocGet need_rollback fcp).getD true then
      rollbackConnections assigner_id need_rollback rest
        (FCPManager.increase_fcp_usage st fcp assigner_id).1
    else rollbackConnections assigner_id need_rollback rest st

/-- The error caught by `_detach`'s failure branch, if any: from
`_remove_disks` or from the first failing undedicate. -/
def detachCaughtErr (ctx : Ctx) (assigner_id : String)
    (fcp_connections : List (String × Nat)) (fcp_list : List String) :
    Option ErrRes :=
  match ctx.remove_disks_err with
  | some e => some e
  | none => (undedicateLoop ctx assigner_id fcp_connections fcp_list).2

/-- `FCPVolumeManager._detach` (volumeop.py:925-1014): decrement usage;
stop after bookkeeping for root volumes, connections-only updates, or a
vanished guest; otherwise deconfigure the guest and undedicate drained
devices.  A caught error with `rc == 404 or rc == 204 and rs == 8` is
swallowed; any other caught error re-increments the rollback-eligible
devices, best-effort re-runs attach configuration, and re-raises. -/
def _detach (ctx : Ctx) (st : Store) (fcp_list : List String)
    (assigner_id : String) (is_root_volume : Bool)
    (update_connections_only : Bool) : Store × List Action × Bool :=
  let (st1, fcp_connections, need_rollback) := decreaseLoop fcp_list st
  if is_root_volume || update_connections_only then (st1, [], false)
  else if ¬ ctx.userid_exists then (st1, [], false)
  else
    let acts := match ctx.remove_disks_err with
      | some _ => [Action.configDetach fcp_list assigner_id]
      | none =>
        Action.configDetach fcp_list assigner_id ::
          (undedicateLoop ctx assigner_id fcp_connections fcp_list).1
    match detachCaughtErr ctx assigner_id fcp_connections fcp_list with
    | none => (st1, acts, false)
    | some err =>
      if err.rc = 404 ∨ (err.rc = 204 ∧ err.rs = 8) then (st1, acts, false)
      else
        let st2 := rollbackConnections assigner_id need_rollback fcp_list st1
        (st2, acts ++ [.configAttach fcp_list assigner_id], true)

/-! ### Connector resolver -/

/-- The connector dictionary returned by `get_volume_connector`.  The
`phy_to_virt_initiators` dictionary is keyed by the resolved WWPN,
which the source allows to be `None`. -/
structure Connector where
  zvm_fcp : List String
  wwpns : List String
  phy_to_virt_initiators : List (Option String × Option String)
  host : String
deriving DecidableEq, Repr

/-- `empty_connector` (volumeop.py:1059-1060). -/
def empty_connector : Connector :=
  { zvm_fcp := [], wwpns := [], phy_to_virt_initiators := [], host := "" }

/-- `d[k] = v` for the `Option String`-keyed initiator map. -/
def omapSet (m : List (Option String × Option String)) (k : Option String)
    (v : Option String) : List (Option String × Option String) :=
  if (m.find? (fun kv => kv.1 == k)).isSome then
    m.map (fun kv => if kv.1 == k then (k, v) else kv)
  else m ++ [(k, v)]

/-- WWPN resolution of one device in `get_volume_connector`
(volumeop.py:1082-1089): through the configured pool when the device is
there, else through the full live pool. -/
def resolveWwpn (pool : Pool) (all_fcp_pool : Pool) (fcp_no : String) :
    Option String :=
  if (poolFind? pool fcp_no).isSome then FCPManager.get_wwpn pool fcp_no
  else FCPManager.get_wwpn_for_fcp_not_in_conf all_fcp_pool fcp_no

/-- The WWPN-collection loop of `get_volume_connector`
(volumeop.py:1077-1101): collect resolved WWPNs, record an error
message for each device without one, and build the
physical-to-virtual initiator map. -/
def resolveWwpnsGo (pool : Pool) (all_fcp_pool : Pool) :
    List String →
      List String × List (Option String × Option String) × List String →
      List String × List (Option String × Option String) × List String
  | [], acc => acc
  | fcp_no :: rest, acc =>
    let wwpn := resolveWwpn pool all_fcp_pool fcp_no
    let we : List String × List String := match wwpn with
      | none => (acc.1, acc.2.2 ++ ["FCP device " ++ fcp_no ++ " has no available WWPN."])
      | some w => (acc.1 ++ [w], acc.2.2)
    resolveWwpnsGo pool all_fcp_pool rest
      (we.1, omapSet acc.2.1 wwpn (FCPManager.get_physical_wwpn pool fcp_no), we.2)

def resolveWwpns (pool : Pool) (all_fcp_pool : Pool) (fcp_list : List String) :
    List String × List (Option String × Option String) × List String :=
  resolveWwpnsGo pool all_fcp_pool fcp_list ([], [], [])

/-- `FCPVolumeManager.get_volume_connector` (volumeop.py:1044-1136).
Returns the final manager state, the connector, and the error messages
logged; raises only for a missing host name or a pool-initialization
failure. -/
def get_volume_connector (ctx : Ctx) (ms : MgrState) (assigner_id : String)
    (reserve : Bool) : Except String (MgrState × Connector × List String) :=
  if ctx.lpar_name = "" then .error "failed to get zvm host."
  else
    match FCPManager.init_fcp ctx ms with
    | .error e => .error e
    | .ok (ms1, _) =>
      let (st2, fcp_list) := FCPManager.get_available_fcp ctx ms1.store assigner_id reserve
      if fcp_list.isEmpty then
        .ok ({ ms1 with store := st2 }, empty_connector, ["No available FCP device found."])
      else
        let all_fcp_pool :=
          FCPManager.get_all_fcp_pool (ctx.free_fcp_info ++ ctx.active_fcp_info)
        let (wwpns, pmap, errors) := resolveWwpns ms1.fcp_pool all_fcp_pool fcp_list
        if wwpns.isEmpty then
          .ok ({ ms1 with store := st2 }, empty_connector,
               errors ++ ["No available WWPN found."])
        else
          let st3 := fcp_list.foldl (fun st fcp_no =>
            if reserve then st.reserve fcp_no
            else if st.get_connections_from_fcp fcp_no = 0 then st.unreserve fcp_no
            else st) st2
          .ok ({ ms1 with store := st3 },
               { zvm_fcp := fcp_list, wwpns := wwpns,
                 phy_to_virt_initiators := pmap, host := ctx.lpar_name },
               errors)

end FCPVolumeManager

/-! ## Derived views used to state expansion and synchronization claims -/

/-- The effect of one comma-item of `_expand_fcp_list` on the entry of
its own path (the view of `itemStep` at key `path_no`). -/
def entryItemStep (cur : Option (List String)) (item : String) : Option (List String) :=
  if item == "" then cur
  else
    let devices := expandItem item
    match cur with
    | some s => if s ≠ [] then some (listUnion s devices) else some devices
    | none => some devices

/-- The effect of a whole `;`-segment on its path entry. -/
def entryFold (cur : Option (List String)) (items : List String) : Option (List String) :=
  items.foldl entryItemStep cur

/-- The device set a single `;`-segment contributes to its path. -/
def expandSegment (seg : String) : List String :=
  (entryFold none (splitOnChar seg ',')).getD []

/-- A configured FCP that `_add_fcp` would never insert: it is missing
from the pool, or its live status is not free. -/
def notAddable (pool : Pool) (fcp : String) : Prop :=
  ∀ d, poolFind? pool fcp = some d → d.dev_status ≠ some "free"

/-- A store in which the orphan pass of `_sync_db_fcp_list` deletes
nothing: every record whose (lowercased) address is not a pool key is
reserved. -/
abbrev orphanReserved (pool_keys : List String) (st : Store) : Prop :=
  ∀ k r, (k, r) ∈ st → pyLower k ∉ pool_keys → r.reserved = true

/-- A configured FCP on which `syncFcp` at path index `p` has nothing
left to do: either its address is not a pool key, or its record (if
any) already carries path `p` and, when no record exists, `_add_fcp`
would not insert one. -/
abbrev settled (pool : Pool) (p : Nat) (f : String) (st : Store) : Prop :=
  pyLower f ∉ poolKeys pool ∨
    ((∀ rec, Store.find? st f = some rec → rec.path = p) ∧
     (Store.find? st f = none → notAddable pool f))

/-! ## Concrete instances used by counterexamples and witnesses -/

/-- A context whose external collaborators all succeed, with an empty
configured FCP list (so pool initialization is a no-op). -/
def quietCtx : Ctx := {
  conf_fcp_list := "", free_fcp_info := [], active_fcp_info := [],
  dedicate_ok := fun _ => true, add_disks_ok := true,
  remove_disks_err := none, undedicate_err := fun _ => none,
  userid_exists := true, lpar_name := "LPAR1", same_index_conf := true,
  pair_same_index := fun _ => [], pair_free := fun _ => [] }

/-- A store with one reserved, unconnected device `1a00`. -/
def reservedIdleStore : Store :=
  [("1a00", { assigner_id := "", reserved := true, connections := 0, path := 0 })]

/-- A context for the C1 counterexample: dedicate fails. -/
def c1Ctx : Ctx := { quietCtx with dedicate_ok := fun _ => false }

/-- Manager state over `reservedIdleStore`. -/
def c1Ms : MgrState := { fcp_pool := [], path_mapping := [], store := reservedIdleStore }

/-- A store with one device `1b00` that already has a connection. -/
def connectedStore : Store :=
  [("1b00", { assigner_id := "USER1", reserved := true, connections := 1, path := 0 })]

/-- A context for the C1 witness: guest configuration fails. -/
def c1wCtx : Ctx := { quietCtx with add_disks_ok := false }

/-- Manager state over `connectedStore`. -/
def c1wMs : MgrState := { fcp_pool := [], path_mapping := [], store := connectedStore }

/-- A store with one fresh free device record. -/
def freshStore : Store :=
  [("1a00", { assigner_id := "", reserved := false, connections := 0, path := 0 })]

/-- A free descriptor for device `0011` used by the C3 instances. -/
def dev0011 : FCPdev :=
  { dev_no := some "0011", dev_status := some "free",
    npiv_port := some "c05076de33000011", chpid := some "27",
    physical_port := some "c05076de33002641" }

/-- Pool holding `0011`. -/
def poolC3 : Pool := [("0011", dev0011)]

/-- The duplicated path mapping produced by the accepted configuration
string `"0011;0011"`: the same address on paths 0 and 1. -/
def dupMapping : List (Nat × List String) := [(0, ["0011"]), (1, ["0011"])]

/-- A store with `0011` recorded on path 0. -/
def stC3 : Store :=
  [("0011", { assigner_id := "", reserved := false, connections := 0, path := 0 })]

/-- A disjoint two-path mapping for the C3 witness. -/
def okMapping : List (Nat × List String) := [(0, ["0011"]), (1, ["0021"])]

/-- A descriptor without any WWPN (functionally unusable device). -/
def devNoWwpn : FCPdev :=
  { dev_no := some "1a00", dev_status := some "free", npiv_port := none,
    chpid := some "27", physical_port := none }

/-- A descriptor with both NPIV and physical ports. -/
def devBoth : FCPdev :=
  { dev_no := some "1c00", dev_status := some "free",
    npiv_port := some "c05076de330003a1", chpid := some "27",
    physical_port := some "c05076de33002641" }

/-- A descriptor with only a physical port. -/
def devPhysOnly : FCPdev :=
  { dev_no := some "1d00", dev_status := some "free", npiv_port := none,
    chpid := some "27", physical_port := some "c05076de33002641" }

/-- Manager state for the C8 witness: pool contains the WWPN-less
device, whose record is reserved for the requesting assigner. -/
def c8Ms : MgrState :=
  { fcp_pool := [("1a00", devNoWwpn)], path_mapping := [], store := reservedIdleStore }

/-- A detach context whose remote failure has `rc = 404`. -/
def c10SwallowCtx : Ctx := { quietCtx with remove_disks_err := some ⟨404, 99⟩ }

/-- A detach context whose remote failure has a non-swallowed code. -/
def c10RaiseCtx : Ctx := { quietCtx with remove_disks_err := some ⟨300, 0⟩ }

/-- A two-device store: `1a00` has one connection, `1b00` none. -/
def c10Store : Store :=
  [("1a00", { assigner_id := "U", reserved := true, connections := 1, path := 0 }),
   ("1b00", { assigner_id := "U", reserved := true, connections := 0, path := 1 })]

/-! # Theorems

First the groundwork lemmas about the association-list store, then one
theorem per claim (with witnesses and counterexamples where needed). -/

namespace Store

theorem find?_nil (fcp : String) : Store.find? [] fcp = none := rfl

theorem find?_cons (k : String) (v : FcpRec) (t : Store) (fcp : String) :
    Store.find? ((k, v) :: t) fcp = if k = fcp then some v else Store.find? t fcp := by
  simp only [Store.find?, assocGet, List.find?]
  by_cases h : k = fcp
  · simp [h]
  · simp [h, (by simpa using h : (k == fcp) = false)]

theorem modifyRec_nil (fcp : String) (f : FcpRec → FcpRec) :
    Store.modifyRec [] fcp f = [] := rfl

theorem modifyRec_cons (k : String) (v : FcpRec) (t : Store) (fcp : String)
    (f : FcpRec → FcpRec) :
    Store.modifyRec ((k, v) :: t) fcp f =
      (if k = fcp then (k, f v) else (k, v)) :: Store.modifyRec t fcp f := by
  by_cases h : k = fcp <;> simp [Store.modifyRec, h]

theorem find?_modifyRec_self (st : Store) (fcp : String) (f : FcpRec → FcpRec) :
    Store.find? (st.modifyRec fcp f) fcp = (Store.find? st fcp).map f := by
  induction st with
  | nil => rfl
  | cons kv t ih =>
    obtain ⟨k, v⟩ := kv
    rw [modifyRec_cons]
    by_cases h : k = fcp
    · simp [h, find?_cons]
    · simp [h, find?_cons, ih]

theorem find?_modifyRec_ne (st : Store) (fcp other : String) (f : FcpRec → FcpRec)
    (h : other ≠ fcp) :
    Store.find? (st.modifyRec fcp f) other = Store.find? st other := by
  induction st with
  | nil => rfl
  | cons kv t ih =>
    obtain ⟨k, v⟩ := kv
    rw [modifyRec_cons]
    by_cases hk : k = fcp
    · subst hk
      have hko : k ≠ other := fun hh => h hh.symm
      simp [find?_cons, hko, ih]
    · simp [hk, find?_cons, ih]

end Store

section AssocLemmas

variable {β : Type}

theorem assocGet_nil (k : String) : assocGet ([] : List (String × β)) k = none := rfl

theorem assocGet_cons (k0 : String) (v0 : β) (t : List (String × β)) (k : String) :
    assocGet ((k0, v0) :: t) k = if k0 = k then some v0 else assocGet t k := by
  simp only [assocGet, List.find?]
  by_cases h : k0 = k
  · simp [h]
  · simp [h, (by simpa using h : (k0 == k) = false)]

theorem assocGet_append (m m' : List (String × β)) (k : String) :
    assocGet (m ++ m') k =
      match assocGet m k with
      | some v => some v
      | none => assocGet m' k := by
  induction m with
  | nil => simp [assocGet_nil]
  | cons kv t ih =>
    obtain ⟨k0, v0⟩ := kv
    by_cases h : k0 = k <;> simp [assocGet_cons, h, ih]

theorem assocGet_mapSetEntry_self (m : List (String × β)) (k : String) (v : β)
    (hk : (assocGet m k).isSome) :
    assocGet (m.map (fun kv => if kv.1 == k then (k, v) else kv)) k = some v := by
  induction m with
  | nil => simp [assocGet_nil, assocGet] at hk
  | cons kv t ih =>
    obtain ⟨k0, v0⟩ := kv
    by_cases h : k0 = k
    · simp [h, assocGet_cons]
    · simp only [assocGet_cons, h, if_false] at hk
      simpa [List.map_cons, (by simpa using h : (k0 == k) = false),
        assocGet_cons, h] using ih hk

theorem assocGet_mapSetEntry_ne (m : List (String × β)) (k other : String) (v : β)
    (h : other ≠ k) :
    assocGet (m.map (fun kv => if kv.1 == k then (k, v) else kv)) other
      = assocGet m other := by
  induction m with
  | nil => rfl
  | cons kv t ih =>
    obtain ⟨k0, v0⟩ := kv
    rw [List.map_cons]
    by_cases hk : k0 = k
    · subst hk
      rw [if_pos (by simp), assocGet_cons, assocGet_cons,
        if_neg (fun hh => h hh.symm), if_neg (fun hh => h hh.symm), ih]
    · rw [if_neg (by simpa using hk), assocGet_cons, assocGet_cons, ih]

theorem assocGet_set_self (m : List (String × β)) (k : String) (v : β) :
    assocGet (assocSet m k v) k = some v := by
  unfold assocSet
  split
  next h => exact assocGet_mapSetEntry_self m k v (by simpa [assocGet, Option.isSome_map] using h)
  next h =>
    have hm : assocGet m k = none := by
      simp only [assocGet]
      rcases hfind : m.find? (fun kv => kv.1 == k) with _ | w
      · rw [hfind]; rfl
      · exact absurd (by simp [hfind]) h
    rw [assocGet_append, hm]
    simp [assocGet_cons]

theorem assocGet_set_ne (m : List (String × β)) (k other : String) (v : β)
    (h : other ≠ k) :
    assocGet (assocSet m k v) other = assocGet m other := by
  unfold assocSet
  split
  next hk => exact assocGet_mapSetEntry_ne m k other v h
  next hk =>
    rw [assocGet_append]
    rcases hm : assocGet m other with _ | w
    · have hko : ¬ k = other := fun hh => h hh.symm
      simp [hm, assocGet_cons, assocGet_nil, hko]
    · simp [hm]

end AssocLemmas

open FCPManager FCPVolumeManager

/-- **C9** — `FCPManager.is_reserved` never propagates the store's
reservation flag: it returns `None` for every device, even one whose
persisted record is reserved (as `reservedIdleStore`'s `1a00` is). -/
theorem C9_is_reserved_returns_none :
    (∀ (st : Store) (fcp : String), FCPManager.is_reserved st fcp = none) ∧
    Store.is_reserved reservedIdleStore "1a00" = true ∧
    FCPManager.is_reserved reservedIdleStore "1a00" = none :=
  ⟨fun _ _ => rfl, rfl, rfl⟩

/-- **C5** — `_expand_fcp_list` is a pure function (the embedding is
deterministic by construction), and `"0011-0013;0021-0023"` expands to
exactly path 0 ↦ {0011, 0012, 0013}, path 1 ↦ {0021, 0022, 0023}, with
lowercase zero-padded addresses (device sets are represented as
duplicate-free lists). -/
theorem C5_expand_round_trip :
    (∀ s : String, _expand_fcp_list s = _expand_fcp_list s) ∧
    _expand_fcp_list "0011-0013;0021-0023" =
      .ok [(0, ["0011", "0012", "0013"]), (1, ["0021", "0022", "0023"])] :=
  ⟨fun _ => rfl, by rfl⟩

/-- **C6** — `_expand_fcp_list` raises a configuration error
(`SDKInternalError`) on each of the malformed inputs `"zz-01"`, `";;"`
and `"01-"` instead of returning a mapping. -/
theorem C6_expand_rejects_malformed :
    _expand_fcp_list "zz-01" = .error "Invalid FCP address zz-01" ∧
    _expand_fcp_list ";;" = .error "Invalid FCP address ;;" ∧
    _expand_fcp_list "01-" = .error "Invalid FCP address 01-" :=
  ⟨by rfl, by rfl, by rfl⟩

theorem store_get_connections_some (st : Store) (fcp : String) (rec : FcpRec)
    (h : Store.find? st fcp = some rec) :
    Store.get_connections_from_fcp st fcp = rec.connections := by
  simp [Store.get_connections_from_fcp, h]

theorem undedicateLoop_mem (ctx : Ctx) (assigner_id : String)
    (fcp_connections : List (String × Nat)) (l : List String)
    (fcp a2 : String)
    (h : Action.undedicate fcp a2 ∈
      (FCPVolumeManager.undedicateLoop ctx assigner_id fcp_connections l).1) :
    (assocGet fcp_connections fcp).getD 0 = 0 := by
  induction l with
  | nil => simp [FCPVolumeManager.undedicateLoop] at h
  | cons f rest ih =>
    rw [FCPVolumeManager.undedicateLoop] at h
    by_cases hg : (assocGet fcp_connections f).getD 0 = 0
    · rw [if_pos hg] at h
      cases herr : ctx.undedicate_err f with
      | none =>
        rw [herr] at h
        rcases List.mem_cons.mp h with heq | hmem
        · cases heq; exact hg
        · exact ih hmem
      | some e =>
        rw [herr] at h
        rcases List.mem_singleton.mp h with heq
        cases heq; exact hg
    · rw [if_neg hg] at h
      exact ih h

theorem decrease_usage_ok_shape (st : Store) (fcp : String) (st2 : Store) (c : Nat)
    (h : Store.decrease_usage st fcp = .ok (st2, c)) :
    ∃ r : FcpRec, Store.find? st fcp = some r ∧ r.connections ≠ 0 ∧
      st2 = st.modifyRec fcp (fun r => { r with connections := r.connections - 1 }) ∧
      c = r.connections - 1 := by
  unfold Store.decrease_usage at h
  rcases hf : Store.find? st fcp with _ | r
  · rw [hf] at h; cases h
  · rw [hf] at h
    by_cases hc : r.connections = 0
    · simp only [if_pos hc] at h
      cases h
    · simp only [if_neg hc, Except.ok.injEq, Prod.mk.injEq] at h
      exact ⟨r, rfl, hc, h.1.symm, h.2.symm⟩

theorem decrease_usage_error_conn (st : Store) (fcp : String)
    (h : ∀ p : Store × Nat, Store.decrease_usage st fcp ≠ .ok p) :
    Store.get_connections_from_fcp st fcp = 0 := by
  unfold Store.decrease_usage at h
  rcases hf : Store.find? st fcp with _ | r
  · simp [Store.get_connections_from_fcp, hf]
  · rw [hf] at h
    by_cases hc : r.connections = 0
    · simp [Store.get_connections_from_fcp, hf, hc]
    · exfalso
      apply h (st.modifyRec fcp (fun r => { r with connections := r.connections - 1 }),
        r.connections - 1)
      simp [if_neg hc]

theorem get_connections_congr (st st' : Store) (fcp : String)
    (h : Store.find? st fcp = Store.find? st' fcp) :
    Store.get_connections_from_fcp st fcp = Store.get_connections_from_fcp st' fcp := by
  simp [Store.get_connections_from_fcp, h]

theorem decreaseLoopGo_untouched (fcp : String) (l : List String) :
    ∀ (st : Store) (conns : List (String × Nat)) (nrb : List (String × Bool)),
    fcp ∉ l →
    Store.find? (FCPVolumeManager.decreaseLoopGo l (st, conns, nrb)).1 fcp
        = Store.find? st fcp ∧
    assocGet (FCPVolumeManager.decreaseLoopGo l (st, conns, nrb)).2.1 fcp
        = assocGet conns fcp ∧
    assocGet (FCPVolumeManager.decreaseLoopGo l (st, conns, nrb)).2.2 fcp
        = assocGet nrb fcp := by
  induction l with
  | nil => intro st conns nrb _; exact ⟨rfl, rfl, rfl⟩
  | cons f rest ih =>
    intro st conns nrb h
    have hne : fcp ≠ f := fun hh => h (hh ▸ List.mem_cons_self f rest)
    have hnr : fcp ∉ rest := fun hh => h (List.mem_cons_of_mem f hh)
    rw [FCPVolumeManager.decreaseLoopGo]
    cases hdec : FCPManager.decrease_fcp_usage st f with
    | error e =>
      simp only [hdec]
      obtain ⟨h1, h2, h3⟩ := ih st (assocSet conns f 0) (assocSet nrb f false) hnr
      exact ⟨h1, by rw [h2, assocGet_set_ne _ _ _ _ hne],
             by rw [h3, assocGet_set_ne _ _ _ _ hne]⟩
    | ok p =>
      obtain ⟨st', c⟩ := p
      simp only [hdec]
      obtain ⟨r, hfr, hc0, hst', hcval⟩ :=
        decrease_usage_ok_shape st f st' c hdec
      obtain ⟨h1, h2, h3⟩ := ih st' (assocSet conns f c) (assocSet nrb f true) hnr
      refine ⟨?_, by rw [h2, assocGet_set_ne _ _ _ _ hne],
              by rw [h3, assocGet_set_ne _ _ _ _ hne]⟩
      rw [h1, hst', Store.find?_modifyRec_ne _ _ _ _ hne]

theorem decreaseLoopGo_mem (fcp : String) (l : List String) :
    ∀ (st : Store) (conns : List (String × Nat)) (nrb : List (String × Bool)),
    fcp ∈ l → l.Nodup →
    Store.find? (FCPVolumeManager.decreaseLoopGo l (st, conns, nrb)).1 fcp
        = (Store.find? st fcp).map (fun rec =>
            if rec.connections = 0 then rec
            else { rec with connections := rec.connections - 1 }) ∧
    assocGet (FCPVolumeManager.decreaseLoopGo l (st, conns, nrb)).2.1 fcp
        = some (Store.get_connections_from_fcp st fcp - 1) ∧
    assocGet (FCPVolumeManager.decreaseLoopGo l (st, conns, nrb)).2.2 fcp
        = some (decide (Store.get_connections_from_fcp st fcp ≠ 0)) := by
  induction l with
  | nil => intro st conns nrb hmem _; cases hmem
  | cons f rest ih =>
    intro st conns nrb hmem hnd
    obtain ⟨hf_nr, hnd_rest⟩ := List.nodup_cons.mp hnd
    by_cases hf : fcp = f
    · subst hf
      rw [FCPVolumeManager.decreaseLoopGo]
      cases hdec : FCPManager.decrease_fcp_usage st fcp with
      | error e =>
        simp only [hdec]
        have hc0 : Store.get_connections_from_fcp st fcp = 0 := by
          apply decrease_usage_error_conn
          intro p hp
          rw [FCPManager.decrease_fcp_usage] at hdec
          rw [hp] at hdec
          cases hdec
        obtain ⟨h1, h2, h3⟩ := decreaseLoopGo_untouched fcp rest st
          (assocSet conns fcp 0) (assocSet nrb fcp false) hf_nr
        refine ⟨?_, ?_, ?_⟩
        · rw [h1]
          rcases hfr : Store.find? st fcp with _ | r
          · rfl
          · have : r.connections = 0 := by
              simpa [Store.get_connections_from_fcp, hfr] using hc0
            simp [this]
        · rw [h2, assocGet_set_self, hc0]
        · rw [h3, assocGet_set_self, hc0]
          simp
      | ok p =>
        obtain ⟨st', c⟩ := p
        simp only [hdec]
        obtain ⟨r, hfr, hc0, hst', hcval⟩ :=
          decrease_usage_ok_shape st fcp st' c hdec
        obtain ⟨h1, h2, h3⟩ := decreaseLoopGo_untouched fcp rest st'
          (assocSet conns fcp c) (assocSet nrb fcp true) hf_nr
        have hcon : Store.get_connections_from_fcp st fcp = r.connections :=
          store_get_connections_some st fcp r hfr
        refine ⟨?_, ?_, ?_⟩
        · rw [h1, hst', Store.find?_modifyRec_self, hfr]
          simp [hc0]
        · rw [h2, assocGet_set_self, hcval, hcon]
        · rw [h3, assocGet_set_self, hcon]
          simp [hc0]
    · have hmr : fcp ∈ rest := by
        rcases List.mem_cons.mp hmem with hh | hh
        · exact absurd hh hf
        · exact hh
      rw [FCPVolumeManager.decreaseLoopGo]
      cases hdec : FCPManager.decrease_fcp_usage st f with
      | error e =>
        simp only [hdec]
        exact ih st (assocSet conns f 0) (assocSet nrb f false) hmr hnd_rest
      | ok p =>
        obtain ⟨st', c⟩ := p
        simp only [hdec]
        obtain ⟨r, hfr, hc0, hst', hcval⟩ :=
          decrease_usage_ok_shape st f st' c hdec
        have hpre : Store.find? st' fcp = Store.find? st fcp := by
          rw [hst', Store.find?_modifyRec_ne _ _ _ _ hf]
        obtain ⟨h1, h2, h3⟩ := ih st' (assocSet conns f c) (assocSet nrb f true) hmr hnd_rest
        refine ⟨?_, ?_, ?_⟩
        · rw [h1, hpre]
        · rw [h2, get_connections_congr _ _ _ hpre]
        · rw [h3, get_connections_congr _ _ _ hpre]

theorem increase_fcp_usage_find_ne (st : Store) (f fcp assigner_id : String)
    (h : fcp ≠ f) :
    Store.find? (FCPManager.increase_fcp_usage st f assigner_id).1 fcp
      = Store.find? st fcp := by
  unfold FCPManager.increase_fcp_usage
  by_cases hc : Store.get_connections_from_fcp st f = 0 <;>
    simp [hc, Store.assign, Store.increase_usage, Store.find?_modifyRec_ne _ _ _ _ h]

theorem increase_fcp_usage_conn_self (st : Store) (f assigner_id : String)
    (r : FcpRec) (hfr : Store.find? st f = some r) :
    Store.get_connections_from_fcp (FCPManager.increase_fcp_usage st f assigner_id).1 f
      = r.connections + 1 := by
  unfold FCPManager.increase_fcp_usage
  by_cases hc : Store.get_connections_from_fcp st f = 0
  · rw [if_pos hc]
    simp [Store.assign, Store.get_connections_from_fcp, Store.find?_modifyRec_self, hfr]
  · rw [if_neg hc]
    simp [Store.increase_usage, Store.get_connections_from_fcp,
      Store.find?_modifyRec_self, hfr]

theorem rollbackConnections_untouched (assigner_id : String)
    (nrb : List (String × Bool)) (fcp : String) (l : List String) :
    ∀ st : Store, fcp ∉ l →
    Store.find? (FCPVolumeManager.rollbackConnections assigner_id nrb l st) fcp
      = Store.find? st fcp := by
  induction l with
  | nil => intro st _; rfl
  | cons f rest ih =>
    intro st h
    have hne : fcp ≠ f := fun hh => h (hh ▸ List.mem_cons_self f rest)
    have hnr : fcp ∉ rest := fun hh => h (List.mem_cons_of_mem f hh)
    rw [FCPVolumeManager.rollbackConnections]
    by_cases hg : (assocGet nrb f).getD true = true
    · rw [if_pos hg, ih _ hnr, increase_fcp_usage_find_ne st f fcp assigner_id hne]
    · rw [if_neg hg, ih _ hnr]

theorem rollbackConnections_mem (assigner_id : String)
    (nrb : List (String × Bool)) (fcp : String) (l : List String) :
    ∀ st : Store, fcp ∈ l → l.Nodup →
    ((assocGet nrb fcp).getD true = true → (Store.find? st fcp).isSome) →
    Store.get_connections_from_fcp
        (FCPVolumeManager.rollbackConnections assigner_id nrb l st) fcp
      = Store.get_connections_from_fcp st fcp
        + (if (assocGet nrb fcp).getD true = true then 1 else 0) := by
  induction l with
  | nil => intro st hmem _ _; cases hmem
  | cons f rest ih =>
    intro st hmem hnd hpres
    obtain ⟨hf_nr, hnd_rest⟩ := List.nodup_cons.mp hnd
    rw [FCPVolumeManager.rollbackConnections]
    by_cases hf : fcp = f
    · subst hf
      by_cases hg : (assocGet nrb fcp).getD true = true
      · rw [if_pos hg]
        rcases hfr : Store.find? st fcp with _ | r
        · exact absurd (hfr ▸ hpres hg) (by simp)
        · rw [get_connections_congr _ _ _
              (rollbackConnections_untouched assigner_id nrb fcp rest _ hf_nr),
            increase_fcp_usage_conn_self st fcp assigner_id r hfr,
            store_get_connections_some st fcp r hfr, if_pos hg]
      · rw [if_neg hg,
          get_connections_congr _ _ _
            (rollbackConnections_untouched assigner_id nrb fcp rest st hf_nr),
          if_neg hg]
        simp
    · have hmr : fcp ∈ rest := by
        rcases List.mem_cons.mp hmem with hh | hh
        · exact absurd hh hf
        · exact hh
      by_cases hg : (assocGet nrb f).getD true = true
      · rw [if_pos hg]
        have hpre : Store.find? (FCPManager.increase_fcp_usage st f assigner_id).1 fcp
            = Store.find? st fcp := increase_fcp_usage_find_ne st f fcp assigner_id hf
        rw [ih _ hmr hnd_rest (fun hh => hpre ▸ hpres hh),
          get_connections_congr _ _ _ hpre]
      · rw [if_neg hg, ih _ hmr hnd_rest hpres]

/-- **C2** — usage accounting: starting from a device record with zero
connections, `add_fcp_for_assigner` reports first use and leaves count 1,
a second call reports not-first-use and leaves count 2; two decrements
then return counts 1 and 0.  Moreover the detach orchestrator issues an
undedicate for a device only when its recorded post-decrement connection
count is 0. -/
theorem C2_usage_accounting :
    (∀ (st : Store) (fcp assigner_id : String) (rec : FcpRec),
      Store.find? st fcp = some rec → rec.connections = 0 →
      (FCPManager.add_fcp_for_assigner st fcp assigner_id).2 = true ∧
      (FCPManager.add_fcp_for_assigner
        (FCPManager.add_fcp_for_assigner st fcp assigner_id).1 fcp assigner_id).2 = false ∧
      Store.get_connections_from_fcp
        (FCPManager.add_fcp_for_assigner
          (FCPManager.add_fcp_for_assigner st fcp assigner_id).1 fcp assigner_id).1 fcp = 2 ∧
      (∃ st3 : Store,
        FCPManager.decrease_fcp_usage
          (FCPManager.add_fcp_for_assigner
            (FCPManager.add_fcp_for_assigner st fcp assigner_id).1 fcp assigner_id).1 fcp
          = .ok (st3, 1) ∧
        ∃ st4 : Store, FCPManager.decrease_fcp_usage st3 fcp = .ok (st4, 0))) ∧
    (∀ (ctx : Ctx) (st : Store) (fcp_list : List String) (assigner_id : String)
      (is_root_volume update_connections_only : Bool) (fcp a2 : String),
      Action.undedicate fcp a2 ∈
        (FCPVolumeManager._detach ctx st fcp_list assigner_id is_root_volume
          update_connections_only).2.1 →
      (assocGet (FCPVolumeManager.decreaseLoop fcp_list st).2.1 fcp).getD 0 = 0) := by
  constructor
  · intro st fcp assigner_id rec hfind hconn
    obtain ⟨aid, res, conn, pth⟩ := rec
    simp only at hconn
    subst hconn
    have h0 : Store.get_connections_from_fcp st fcp = 0 :=
      store_get_connections_some st fcp _ hfind
    have e1 : FCPManager.add_fcp_for_assigner st fcp assigner_id
        = (st.assign fcp assigner_id true, true) := by
      simp [FCPManager.add_fcp_for_assigner, h0]
    have hfind1 : Store.find? (st.assign fcp assigner_id true) fcp
        = some ⟨assigner_id, res, 1, pth⟩ := by
      simp [Store.assign, Store.find?_modifyRec_self, hfind]
    have h1 : Store.get_connections_from_fcp (st.assign fcp assigner_id true) fcp = 1 :=
      store_get_connections_some _ fcp _ hfind1
    have e2 : FCPManager.add_fcp_for_assigner (st.assign fcp assigner_id true) fcp assigner_id
        = ((st.assign fcp assigner_id true).increase_usage_by_assigner fcp assigner_id, false) := by
      simp [FCPManager.add_fcp_for_assigner, h1]
    have hfind2 : Store.find?
        ((st.assign fcp assigner_id true).increase_usage_by_assigner fcp assigner_id) fcp
        = some ⟨assigner_id, res, 2, pth⟩ := by
      simp [Store.increase_usage_by_assigner, Store.find?_modifyRec_self, hfind1]
    refine ⟨by rw [e1], by rw [e1, e2], ?_, ?_⟩
    · rw [e1, e2]
      exact store_get_connections_some _ fcp _ hfind2
    · rw [e1, e2]
      refine ⟨((st.assign fcp assigner_id true).increase_usage_by_assigner fcp
          assigner_id).modifyRec fcp (fun r => { r with connections := r.connections - 1 }), ?_, ?_⟩
      · simp [FCPManager.decrease_fcp_usage, Store.decrease_usage, hfind2]
      · have hfind3 : Store.find?
            (((st.assign fcp assigner_id true).increase_usage_by_assigner fcp
              assigner_id).modifyRec fcp (fun r => { r with connections := r.connections - 1})) fcp
            = some ⟨assigner_id, res, 1, pth⟩ := by
          simp [Store.find?_modifyRec_self, hfind2]
        refine ⟨(((st.assign fcp assigner_id true).increase_usage_by_assigner fcp
            assigner_id).modifyRec fcp
              (fun r => { r with connections := r.connections - 1 })).modifyRec fcp
              (fun r => { r with connections := r.connections - 1 }), ?_⟩
        simp [FCPManager.decrease_fcp_usage, Store.decrease_usage, hfind3]
  · intro ctx st fcp_list assigner_id is_root uco fcp a2 hmem
    rcases hD : FCPVolumeManager.decreaseLoop fcp_list st with ⟨st1, conns, nrb⟩
    rw [FCPVolumeManager._detach, hD] at hmem
    simp only at hmem
    by_cases hroot : (is_root || uco) = true
    · rw [if_pos hroot] at hmem
      simp at hmem
    · rw [if_neg hroot] at hmem
      by_cases huid : ctx.userid_exists
      · rw [if_neg (by simpa using huid)] at hmem
        rcases hrem : ctx.remove_disks_err with _ | e <;>
          rcases hcaught : FCPVolumeManager.detachCaughtErr ctx assigner_id conns fcp_list
            with _ | err <;>
          simp only [hrem, hcaught] at hmem
        · simp only [List.mem_cons] at hmem
          rcases hmem with heq | hmem
          · exact absurd heq (by simp)
          · exact undedicateLoop_mem ctx assigner_id conns fcp_list fcp a2 hmem
        · split at hmem <;>
            simp only [List.mem_append, List.mem_cons, List.mem_singleton] at hmem
          · rcases hmem with heq | hmem
            · exact absurd heq (by simp)
            · exact undedicateLoop_mem ctx assigner_id conns fcp_list fcp a2 hmem
          · rcases hmem with (heq | hmem) | heq
            · exact absurd heq (by simp)
            · exact undedicateLoop_mem ctx assigner_id conns fcp_list fcp a2 hmem
            · exact absurd heq (by simp)
        · simp at hmem
        · split at hmem <;> simp at hmem
      · rw [if_pos (by simpa using huid)] at hmem
        simp at hmem

/-- Witness for C2: a fresh record for `1a00` with zero connections, and
a detach run in which `1a00` is actually undedicated. -/
theorem C2_usage_accounting_witness :
    (Store.find? freshStore "1a00"
        = some { assigner_id := "", reserved := false, connections := 0, path := 0 } ∧
      (FCPManager.add_fcp_for_assigner freshStore "1a00" "USER1").2 = true ∧
      (FCPManager.add_fcp_for_assigner
        (FCPManager.add_fcp_for_assigner freshStore "1a00" "USER1").1 "1a00" "USER1").2 = false ∧
      Store.get_connections_from_fcp
        (FCPManager.add_fcp_for_assigner
          (FCPManager.add_fcp_for_assigner freshStore "1a00" "USER1").1 "1a00" "USER1").1
        "1a00" = 2) ∧
    (Action.undedicate "1a00" "U" ∈
        (FCPVolumeManager._detach quietCtx c10Store ["1a00", "1b00"] "U" false false).2.1 ∧
      (assocGet (FCPVolumeManager.decreaseLoop ["1a00", "1b00"] c10Store).2.1 "1a00").getD 0
        = 0) := by
  have h1 := (C2_usage_accounting.1 freshStore "1a00" "USER1"
    { assigner_id := "", reserved := false, connections := 0, path := 0 } (by rfl) (by rfl))
  have h2 := C2_usage_accounting.2 quietCtx c10Store ["1a00", "1b00"] "U" false false
    "1a00" "U" (by decide)
  exact ⟨⟨by rfl, h1.1, h1.2.1, h1.2.2.1⟩, ⟨by decide, h2⟩⟩

theorem is_reserved_congr (st st' : Store) (fcp : String)
    (h : Store.find? st fcp = Store.find? st' fcp) :
    Store.is_reserved st fcp = Store.is_reserved st' fcp := by
  simp [Store.is_reserved, h]

theorem add_step_find_self (st : Store) (f assigner_id : String) :
    Store.find? (FCPManager.add_fcp_for_assigner st f assigner_id).1 f
      = (Store.find? st f).map (fun r =>
          { r with assigner_id := if r.connections = 0 then assigner_id else r.assigner_id,
                   connections := r.connections + 1 }) := by
  simp only [FCPManager.add_fcp_for_assigner]
  by_cases hc : Store.get_connections_from_fcp st f = 0
  · rw [if_pos hc]
    rcases hfr : Store.find? st f with _ | r
    · simp [Store.assign, Store.find?_modifyRec_self, hfr]
    · have hr0 : r.connections = 0 := by
        simpa [Store.get_connections_from_fcp, hfr] using hc
      simp [Store.assign, Store.find?_modifyRec_self, hfr, hr0]
  · rw [if_neg hc]
    rcases hfr : Store.find? st f with _ | r
    · exact absurd (by simp [Store.get_connections_from_fcp, hfr]) hc
    · have hr0 : ¬ r.connections = 0 := by
        simpa [Store.get_connections_from_fcp, hfr] using hc
      simp [Store.increase_usage_by_assigner, Store.find?_modifyRec_self, hfr, hr0]

theorem add_step_find_ne (st : Store) (f fcp assigner_id : String) (h : fcp ≠ f) :
    Store.find? (FCPManager.add_fcp_for_assigner st f assigner_id).1 fcp
      = Store.find? st fcp := by
  simp only [FCPManager.add_fcp_for_assigner]
  by_cases hc : Store.get_connections_from_fcp st f = 0
  · rw [if_pos hc]
    simp [Store.assign, Store.find?_modifyRec_ne _ _ _ _ h]
  · rw [if_neg hc]
    simp [Store.increase_usage_by_assigner, Store.find?_modifyRec_ne _ _ _ _ h]

theorem addLoopGo_spec (assigner_id fcp : String) (l : List String) :
    ∀ (st : Store) (m : List (String × Bool)),
    (Store.find? (FCPVolumeManager.addLoopGo assigner_id l (st, m)).1 fcp).isSome
        = (Store.find? st fcp).isSome ∧
    Store.get_connections_from_fcp (FCPVolumeManager.addLoopGo assigner_id l (st, m)).1 fcp
        = Store.get_connections_from_fcp st fcp
          + (if (Store.find? st fcp).isSome then l.count fcp else 0) ∧
    Store.is_reserved (FCPVolumeManager.addLoopGo assigner_id l (st, m)).1 fcp
        = Store.is_reserved st fcp := by
  induction l with
  | nil =>
    intro st m
    simp [FCPVolumeManager.addLoopGo]
  | cons f rest ih =>
    intro st m
    rw [FCPVolumeManager.addLoopGo]
    rcases hstep : FCPManager.add_fcp_for_assigner st f assigner_id with ⟨st', b⟩
    simp only
    obtain ⟨ih1, ih2, ih3⟩ := ih st' (assocSet m f b)
    by_cases hf : fcp = f
    · subst hf
      have hfind' : Store.find? st' fcp
          = (Store.find? st fcp).map (fun r =>
              { r with assigner_id := if r.connections = 0 then assigner_id
                         else r.assigner_id,
                       connections := r.connections + 1 }) := by
        rw [← add_step_find_self st fcp assigner_id, hstep]
      rcases hfr : Store.find? st fcp with _ | r
      · rw [hfr, Option.map_none'] at hfind'
        refine ⟨?_, ?_, ?_⟩
        · rw [ih1, hfind']
        · rw [ih2]
          simp [Store.get_connections_from_fcp, hfind', hfr]
        · rw [ih3]
          exact is_reserved_congr _ _ _ (by rw [hfind', hfr])
      · rw [hfr, Option.map_some'] at hfind'
        refine ⟨?_, ?_, ?_⟩
        · rw [ih1, hfind']
          rfl
        · rw [ih2, store_get_connections_some _ _ _ hfind',
            store_get_connections_some _ _ _ hfr, hfind', List.count_cons]
          simp
          omega
        · rw [ih3]
          simp [Store.is_reserved, hfind', hfr]
    · have hfind' : Store.find? st' fcp = Store.find? st fcp := by
        rw [← add_step_find_ne st f fcp assigner_id hf, hstep]
      have hfc : ¬ f = fcp := fun hh => hf hh.symm
      have hcount : (f :: rest).count fcp = rest.count fcp := by
        rw [List.count_cons]
        simp [hf, hfc]
      refine ⟨?_, ?_, ?_⟩
      · rw [ih1, hfind']
      · rw [ih2, get_connections_congr _ _ _ hfind', hfind', hcount]
      · rw [ih3]
        exact is_reserved_congr _ _ _ hfind'

theorem decrease_usage_eq_error (st : Store) (fcp : String) (e : Unit)
    (h : Store.decrease_usage st fcp = .error e) :
    Store.get_connections_from_fcp st fcp = 0 := by
  apply decrease_usage_error_conn
  intro p hp
  rw [hp] at h
  cases h

theorem rollbackDecreaseLoop_spec (assigner_id fcp : String) (l : List String) :
    ∀ st : Store,
    ((Store.find? st fcp).isSome →
      l.count fcp ≤ Store.get_connections_from_fcp st fcp) →
    (Store.find? (FCPVolumeManager.rollbackDecreaseLoop assigner_id l st).1 fcp).isSome
        = (Store.find? st fcp).isSome ∧
    Store.get_connections_from_fcp
        (FCPVolumeManager.rollbackDecreaseLoop assigner_id l st).1 fcp
        = Store.get_connections_from_fcp st fcp - l.count fcp ∧
    Store.is_reserved (FCPVolumeManager.rollbackDecreaseLoop assigner_id l st).1 fcp
        = Store.is_reserved st fcp := by
  induction l with
  | nil =>
    intro st _
    simp [FCPVolumeManager.rollbackDecreaseLoop]
  | cons f rest ih =>
    intro st hge
    rw [FCPVolumeManager.rollbackDecreaseLoop]
    cases hdec : FCPManager.decrease_fcp_usage st f with
    | error e =>
      simp only [hdec]
      have hc0 : Store.get_connections_from_fcp st f = 0 :=
        decrease_usage_eq_error st f e hdec
      by_cases hf : fcp = f
      · subst hf
        obtain ⟨h1, h2, h3⟩ := ih st (by
          intro hp
          have hle := hge hp
          rw [hc0, List.count_cons] at hle
          simp at hle)
        refine ⟨h1, ?_, h3⟩
        rw [h2, hc0]
        simp
      · have hfc : ¬ f = fcp := fun hh => hf hh.symm
        have hcount : (f :: rest).count fcp = rest.count fcp := by
          rw [List.count_cons]; simp [hf, hfc]
        obtain ⟨h1, h2, h3⟩ := ih st (by
          intro hp
          have hle := hge hp
          rw [hcount] at hle
          exact hle)
        exact ⟨h1, by rw [h2, hcount], h3⟩
    | ok p =>
      obtain ⟨st', c⟩ := p
      simp only [hdec]
      obtain ⟨r, hfr, hc0, hst', hcval⟩ := decrease_usage_ok_shape st f st' c hdec
      rcases hrest : FCPVolumeManager.rollbackDecreaseLoop assigner_id rest st'
        with ⟨st2, acts⟩
      have hsplit : (if c = 0
          then (st2, Action.undedicate f assigner_id :: acts)
          else (st2, acts)).1 = st2 := by
        by_cases hcz : c = 0 <;> simp [hcz]
      by_cases hf : fcp = f
      · subst hf
        have hfind' : Store.find? st' fcp
            = some { r with connections := r.connections - 1 } := by
          rw [hst', Store.find?_modifyRec_self, hfr]
          rfl
        have hconn' : Store.get_connections_from_fcp st' fcp = r.connections - 1 := by
          rw [store_get_connections_some _ _ _ hfind']
        have hcs : Store.get_connections_from_fcp st fcp = r.connections :=
          store_get_connections_some _ _ _ hfr
        have hlt : List.count fcp (fcp :: rest) ≤ r.connections := by
          have := hge (by rw [hfr]; rfl)
          rwa [hcs] at this
        have hcc : List.count fcp (fcp :: rest) = List.count fcp rest + 1 := by
          rw [List.count_cons]
          simp
        have hge' : (Store.find? st' fcp).isSome →
            rest.count fcp ≤ Store.get_connections_from_fcp st' fcp := by
          intro _
          rw [hconn']
          omega
        obtain ⟨h1, h2, h3⟩ := ih st' hge'
        rw [hrest] at h1 h2 h3
        refine ⟨?_, ?_, ?_⟩
        · rw [hsplit, h1, hfind', hfr]
          rfl
        · rw [hsplit, h2, hconn', hcs, hcc]
          omega
        · rw [hsplit, h3]
          simp [Store.is_reserved, hfind', hfr]
      · have hfind' : Store.find? st' fcp = Store.find? st fcp := by
          rw [hst', Store.find?_modifyRec_ne _ _ _ _ hf]
        have hfc : ¬ f = fcp := fun hh => hf hh.symm
        have hcount : (f :: rest).count fcp = rest.count fcp := by
          rw [List.count_cons]; simp [hf, hfc]
        have hge' : (Store.find? st' fcp).isSome →
            rest.count fcp ≤ Store.get_connections_from_fcp st' fcp := by
          intro hp
          rw [get_connections_congr _ _ _ hfind']
          rw [hfind'] at hp
          have := hge hp
          omega
        obtain ⟨h1, h2, h3⟩ := ih st' hge'
        rw [hrest] at h1 h2 h3
        refine ⟨?_, ?_, ?_⟩
        · rw [hsplit, h1, hfind']
        · rw [hsplit, h2, get_connections_congr _ _ _ hfind', hcount]
        · rw [hsplit, h3]
          exact is_reserved_congr _ _ _ hfind'

theorem rollbackUnreserveLoop_spec (fcp : String) (l : List String) :
    ∀ st : Store,
    (Store.find? (FCPVolumeManager.rollbackUnreserveLoop l st) fcp).isSome
        = (Store.find? st fcp).isSome ∧
    Store.get_connections_from_fcp (FCPVolumeManager.rollbackUnreserveLoop l st) fcp
        = Store.get_connections_from_fcp st fcp ∧
    Store.is_reserved (FCPVolumeManager.rollbackUnreserveLoop l st) fcp
        = (if fcp ∈ l ∧ Store.get_connections_from_fcp st fcp = 0 then false
           else Store.is_reserved st fcp) := by
  induction l with
  | nil =>
    intro st
    simp [FCPVolumeManager.rollbackUnreserveLoop]
  | cons f rest ih =>
    intro st
    rw [FCPVolumeManager.rollbackUnreserveLoop]
    by_cases hf : fcp = f
    · subst hf
      by_cases hc : Store.get_connections_from_fcp st fcp = 0
      · rw [if_pos hc]
        have hfind' : Store.find? (st.unreserve fcp) fcp
            = (Store.find? st fcp).map (fun r => { r with reserved := false }) := by
          simp [Store.unreserve, Store.find?_modifyRec_self]
        have hres' : Store.is_reserved (st.unreserve fcp) fcp = false := by
          rcases hfr : Store.find? st fcp with _ | r <;>
            simp [Store.is_reserved, hfind', hfr]
        have hconn' : Store.get_connections_from_fcp (st.unreserve fcp) fcp
            = Store.get_connections_from_fcp st fcp := by
          rcases hfr : Store.find? st fcp with _ | r <;>
            simp [Store.get_connections_from_fcp, hfind', hfr]
        obtain ⟨h1, h2, h3⟩ := ih (st.unreserve fcp)
        refine ⟨?_, ?_, ?_⟩
        · rw [h1, hfind']
          rcases hfr : Store.find? st fcp with _ | r <;> simp [hfr]
        · rw [h2, hconn']
        · rw [h3]
          by_cases hm : fcp ∈ rest
          · rw [if_pos ⟨hm, by rw [hconn']; exact hc⟩,
              if_pos ⟨List.mem_cons_self _ _, hc⟩]
          · rw [if_neg (by rintro ⟨hmm, _⟩; exact hm hmm), hres',
              if_pos ⟨List.mem_cons_self _ _, hc⟩]
      · rw [if_neg hc]
        obtain ⟨h1, h2, h3⟩ := ih st
        refine ⟨h1, h2, ?_⟩
        rw [h3]
        by_cases hm : fcp ∈ rest
        · rw [if_neg (by rintro ⟨_, hcc⟩; exact hc hcc),
            if_neg (by rintro ⟨_, hcc⟩; exact hc hcc)]
        · rw [if_neg (by rintro ⟨hmm, _⟩; exact hm hmm),
            if_neg (by rintro ⟨_, hcc⟩; exact hc hcc)]
    · have step : ∀ st0 : Store,
          Store.find? st0 fcp = Store.find? st fcp →
          (Store.find? (FCPVolumeManager.rollbackUnreserveLoop rest st0) fcp).isSome
              = (Store.find? st fcp).isSome ∧
          Store.get_connections_from_fcp (FCPVolumeManager.rollbackUnreserveLoop rest st0) fcp
              = Store.get_connections_from_fcp st fcp ∧
          Store.is_reserved (FCPVolumeManager.rollbackUnreserveLoop rest st0) fcp
              = (if fcp ∈ f :: rest ∧ Store.get_connections_from_fcp st fcp = 0 then false
                 else Store.is_reserved st fcp) := by
        intro st0 heq
        obtain ⟨h1, h2, h3⟩ := ih st0
        refine ⟨by rw [h1, heq], by rw [h2, get_connections_congr _ _ _ heq], ?_⟩
        rw [h3, get_connections_congr _ _ _ heq, is_reserved_congr _ _ _ heq]
        by_cases hm : fcp ∈ rest <;>
          by_cases hcc : Store.get_connections_from_fcp st fcp = 0 <;>
          simp [hm, hcc, List.mem_cons, hf]
      by_cases hcf : Store.get_connections_from_fcp st f = 0
      · rw [if_pos hcf]
        exact step _ (by simp [Store.unreserve, Store.find?_modifyRec_ne _ _ _ _ hf])
      · rw [if_neg hcf]
        exact step st rfl

theorem mapGet_nil (p : Nat) : mapGet [] p = none := rfl

theorem mapGet_cons (k : Nat) (v : List String) (t : List (Nat × List String)) (p : Nat) :
    mapGet ((k, v) :: t) p = if k = p then some v else mapGet t p := by
  simp only [mapGet, List.find?]
  by_cases h : k = p
  · simp [h]
  · simp [h, (by simpa using h : (k == p) = false)]

theorem mapGet_append (m m' : List (Nat × List String)) (p : Nat) :
    mapGet (m ++ m') p =
      match mapGet m p with
      | some v => some v
      | none => mapGet m' p := by
  induction m with
  | nil => simp [mapGet_nil]
  | cons kv t ih =>
    obtain ⟨k, v⟩ := kv
    by_cases h : k = p <;> simp [mapGet_cons, h, ih]

theorem mapGet_mapSetEntry_self (m : List (Nat × List String)) (p : Nat)
    (v : List String) (hp : (mapGet m p).isSome) :
    mapGet (m.map (fun kv => if kv.1 == p then (p, v) else kv)) p = some v := by
  induction m with
  | nil => simp [mapGet_nil, mapGet] at hp
  | cons kv t ih =>
    obtain ⟨k, v0⟩ := kv
    by_cases h : k = p
    · simp [h, mapGet_cons]
    · simp only [mapGet_cons, h, if_false] at hp
      simpa [List.map_cons, (by simpa using h : (k == p) = false),
        mapGet_cons, h] using ih hp

theorem mapGet_mapSetEntry_ne (m : List (Nat × List String)) (p q : Nat)
    (v : List String) (h : q ≠ p) :
    mapGet (m.map (fun kv => if kv.1 == p then (p, v) else kv)) q = mapGet m q := by
  induction m with
  | nil => rfl
  | cons kv t ih =>
    obtain ⟨k, v0⟩ := kv
    rw [List.map_cons]
    by_cases hk : k = p
    · subst hk
      rw [if_pos (by simp), mapGet_cons, mapGet_cons,
        if_neg (fun hh => h hh.symm), if_neg (fun hh => h hh.symm), ih]
    · rw [if_neg (by simpa using hk), mapGet_cons, mapGet_cons, ih]

theorem mapGet_set_self (m : List (Nat × List String)) (p : Nat) (v : List String) :
    mapGet (mapSet m p v) p = some v := by
  unfold mapSet
  split
  next h =>
    exact mapGet_mapSetEntry_self m p v (by simpa [mapGet, Option.isSome_map] using h)
  next h =>
    rw [mapGet_append]
    have hm : mapGet m p = none := by
      simp only [mapGet]
      rcases hfind : m.find? (fun kv => kv.1 == p) with _ | w
      · rw [hfind]; rfl
      · exact absurd (by simp [hfind]) h
    simp [hm, mapGet_cons]

theorem mapGet_set_ne (m : List (Nat × List String)) (p q : Nat) (v : List String)
    (h : q ≠ p) :
    mapGet (mapSet m p v) q = mapGet m q := by
  unfold mapSet
  split
  next hk => exact mapGet_mapSetEntry_ne m p q v h
  next hk =>
    rw [mapGet_append]
    rcases hm : mapGet m q with _ | w
    · have hpq : ¬ p = q := fun hh => h hh.symm
      simp [hm, mapGet_cons, mapGet_nil, hpq]
    · simp [hm]

theorem itemStep_self (p : Nat) (m : List (Nat × List String)) (item : String) :
    mapGet (itemStep p m item) p = entryItemStep (mapGet m p) item := by
  unfold itemStep entryItemStep
  by_cases he : (item == "") = true
  · rw [if_pos he, if_pos he]
  · rw [if_neg he, if_neg he]
    rcases hg : mapGet m p with _ | s
    · simp only [hg]
      rw [mapGet_set_self]
    · simp only [hg]
      by_cases hs : s ≠ []
      · rw [if_pos hs, if_pos hs, mapGet_set_self]
      · rw [if_neg hs, if_neg hs, mapGet_set_self]

theorem itemStep_ne (p q : Nat) (m : List (Nat × List String)) (item : String)
    (h : q ≠ p) :
    mapGet (itemStep p m item) q = mapGet m q := by
  unfold itemStep
  by_cases he : (item == "") = true
  · rw [if_pos he]
  · rw [if_neg he]
    rcases hg : mapGet m p with _ | s
    · simp only [hg]
      rw [mapGet_set_ne _ _ _ _ h]
    · simp only [hg]
      by_cases hs : s ≠ []
      · rw [if_pos hs, mapGet_set_ne _ _ _ _ h]
      · rw [if_neg hs, mapGet_set_ne _ _ _ _ h]

theorem segStep_self (m : List (Nat × List String)) (p : Nat) (items : List String) :
    mapGet (segStep m p items) p = entryFold (mapGet m p) items := by
  induction items generalizing m with
  | nil => rfl
  | cons i rest ih =>
    rw [segStep, List.foldl_cons, entryFold, List.foldl_cons]
    rw [show List.foldl (itemStep p) (itemStep p m i) rest = segStep (itemStep p m i) p rest
      from rfl]
    rw [show List.foldl entryItemStep (entryItemStep (mapGet m p) i) rest
      = entryFold (entryItemStep (mapGet m p) i) rest from rfl]
    rw [ih, itemStep_self]

theorem segStep_ne (m : List (Nat × List String)) (p q : Nat) (items : List String)
    (h : q ≠ p) :
    mapGet (segStep m p items) q = mapGet m q := by
  induction items generalizing m with
  | nil => rfl
  | cons i rest ih =>
    rw [segStep, List.foldl_cons,
      show List.foldl (itemStep p) (itemStep p m i) rest = segStep (itemStep p m i) p rest
        from rfl,
      ih, itemStep_ne _ _ _ _ h]

theorem expandBuild_spec (segs : List String) :
    ∀ (m0 : List (Nat × List String)) (p0 : Nat),
    (∀ q' v, mapGet m0 q' = some v → q' < p0) →
    ∀ (q : Nat) (lq : List String),
    mapGet ((segs.foldl
      (fun acc seg => (segStep acc.1 acc.2 (splitOnChar seg ','), acc.2 + 1))
      (m0, p0)).1) q = some lq →
    (mapGet m0 q = some lq) ∨
      ∃ (i : Nat) (hi : i < segs.length),
        q = p0 + i ∧
        entryFold none (splitOnChar (segs.get ⟨i, hi⟩) ',') = some lq := by
  induction segs with
  | nil =>
    intro m0 p0 _ q lq h
    exact Or.inl h
  | cons s rest ih =>
    intro m0 p0 hk q lq h
    rw [List.foldl_cons] at h
    have hk1 : ∀ q' v, mapGet (segStep m0 p0 (splitOnChar s ',')) q' = some v →
        q' < p0 + 1 := by
      intro q' v hv
      by_cases hq' : q' = p0
      · omega
      · rw [segStep_ne _ _ _ _ hq'] at hv
        have := hk q' v hv
        omega
    rcases ih (segStep m0 p0 (splitOnChar s ',')) (p0 + 1) hk1 q lq h with h1 | h1
    · by_cases hq : q = p0
      · subst hq
        rw [segStep_self] at h1
        have hm0 : mapGet m0 q = none := by
          rcases hg : mapGet m0 q with _ | v
          · rfl
          · exact absurd (hk q v hg) (by omega)
        rw [hm0] at h1
        exact Or.inr ⟨0, by simp, by omega, h1⟩
      · rw [segStep_ne _ _ _ _ hq] at h1
        exact Or.inl h1
    · obtain ⟨i, hi, hq, hf⟩ := h1
      refine Or.inr ⟨i + 1, by simpa using Nat.succ_lt_succ hi, by omega, ?_⟩
      simpa using hf

theorem expand_ok_shape (s : String) (m : List (Nat × List String))
    (h : _expand_fcp_list s = .ok m) :
    m = [] ∨
    m = (((splitOnChar (removeSpaces (pyStrip s)) ';').foldl
      (fun acc seg => (segStep acc.1 acc.2 (splitOnChar seg ','), acc.2 + 1))
      ([], 0)).1) := by
  unfold _expand_fcp_list at h
  by_cases he : s = ""
  · rw [if_pos he] at h
    cases h
    exact Or.inl rfl
  · rw [if_neg he] at h
    by_cases hm : ¬ (matchesSingle (removeSpaces (pyStrip s))
        ∨ matchesMulti (removeSpaces (pyStrip s)))
    · rw [if_pos hm] at h
      cases h
    · rw [if_neg hm] at h
      simp only [Except.ok.injEq] at h
      exact Or.inr h.symm

/-- Counterexample to **C4** as stated: the specification string
`"0011;0011"` is accepted by the expansion grammar, yet it assigns the
address `0011` to both path 0 and path 1 — the sets of distinct path
indices are not disjoint. -/
theorem C4_counterexample_overlapping_paths :
    _expand_fcp_list "0011;0011" = .ok [(0, ["0011"]), (1, ["0011"])] ∧
    mapGet [(0, ["0011"]), (1, ["0011"])] 0 = some ["0011"] ∧
    mapGet [(0, ["0011"]), (1, ["0011"])] 1 = some ["0011"] ∧
    (0 : Nat) ≠ 1 ∧
    "0011" ∈ (["0011"] : List String) := by
  refine ⟨by rfl, by rfl, by rfl, by decide, by decide⟩

/-- **C4 (amended)** — the expansion assigns to each path index exactly
the device set contributed by that path's own `;`-segment, so path sets
for distinct indices are pairwise disjoint whenever the segments'
expansions are pairwise disjoint; the grammar alone does not force this
(`"0011;0011"` is accepted and maps `0011` to two paths). -/
theorem C4_amended_paths_disjoint :
    ∀ (s : String) (m : List (Nat × List String)),
    _expand_fcp_list s = .ok m →
    (∀ i j : Nat, i < (splitOnChar (removeSpaces (pyStrip s)) ';').length →
      j < (splitOnChar (removeSpaces (pyStrip s)) ';').length → i ≠ j →
      ∀ x ∈ expandSegment ((splitOnChar (removeSpaces (pyStrip s)) ';').getD i ""),
        x ∉ expandSegment ((splitOnChar (removeSpaces (pyStrip s)) ';').getD j "")) →
    ∀ (p q : Nat) (lp lq : List String),
    mapGet m p = some lp → mapGet m q = some lq → p ≠ q →
    ∀ x ∈ lp, x ∉ lq := by
  intro s m hok hdisj p q lp lq hp hq hpq x hxp
  rcases expand_ok_shape s m hok with hshape | hshape
  · subst hshape
    cases hp
  · subst hshape
    rcases expandBuild_spec _ [] 0 (by intro q' v hv; cases hv) p lp hp with h | h
    · cases h
    · rcases expandBuild_spec _ [] 0 (by intro q' v hv; cases hv) q lq hq with h' | h'
      · cases h'
      · obtain ⟨i, hi, hpi, hfi⟩ := h
        obtain ⟨j, hj, hqj, hfj⟩ := h'
        have hij : i ≠ j := by omega
        have hgi : (splitOnChar (removeSpaces (pyStrip s)) ';').getD i ""
            = (splitOnChar (removeSpaces (pyStrip s)) ';').get ⟨i, hi⟩ :=
          List.getD_eq_get _ _ hi
        have hgj : (splitOnChar (removeSpaces (pyStrip s)) ';').getD j ""
            = (splitOnChar (removeSpaces (pyStrip s)) ';').get ⟨j, hj⟩ :=
          List.getD_eq_get _ _ hj
        have hlp : lp = expandSegment
            ((splitOnChar (removeSpaces (pyStrip s)) ';').getD i "") := by
          rw [hgi, expandSegment, hfi]
          rfl
        have hlq : lq = expandSegment
            ((splitOnChar (removeSpaces (pyStrip s)) ';').getD j "") := by
          rw [hgj, expandSegment, hfj]
          rfl
        intro hxq
        exact hdisj i j hi hj hij x (hlp ▸ hxp) (hlq ▸ hxq)

/-- Witness for the amended C4: `"0011;0021"` has disjoint segment
expansions, and the resulting path sets for paths 0 and 1 are disjoint. -/
theorem C4_amended_paths_disjoint_witness :
    _expand_fcp_list "0011;0021" = .ok [(0, ["0011"]), (1, ["0021"])] ∧
    ∀ x ∈ (["0011"] : List String), x ∉ (["0021"] : List String) := by
  refine ⟨by rfl, ?_⟩
  have h := C4_amended_paths_disjoint "0011;0021" [(0, ["0011"]), (1, ["0021"])]
    (by rfl)
    (by
      intro i j hi hj hij
      have hi2 : i < 2 := hi
      have hj2 : j < 2 := hj
      interval_cases i <;> interval_cases j <;>
        first
          | exact absurd rfl hij
          | decide)
    0 1 ["0011"] ["0021"] (by rfl) (by rfl) (by decide)
  exact h

theorem resolveWwpnsGo_errors_mono (pool all_fcp_pool : Pool) (l : List String) :
    ∀ (acc : List String × List (Option String × Option String) × List String)
      (x : String), x ∈ acc.2.2 →
      x ∈ (FCPVolumeManager.resolveWwpnsGo pool all_fcp_pool l acc).2.2 := by
  induction l with
  | nil => intro acc x hx; exact hx
  | cons f rest ih =>
    intro acc x hx
    rw [FCPVolumeManager.resolveWwpnsGo]
    cases hw : FCPVolumeManager.resolveWwpn pool all_fcp_pool f with
    | none =>
      simp only [hw]
      exact ih _ x (by simp [hx])
    | some w =>
      simp only [hw]
      exact ih _ x hx

/-- **C8** — WWPN precedence and reporting: `get_wwpn` resolves to the
NPIV port when present, else the physical port, else none; in
`get_volume_connector`'s resolution loop every device resolving to none
contributes a "no available WWPN" error message; and
`get_volume_connector` does not raise in that situation — it raises only
for a missing host name or a pool-initialization failure. -/
theorem C8_wwpn_precedence_and_reporting :
    (∀ (pool : Pool) (fcp_no : String) (d : FCPdev),
      poolFind? pool fcp_no = some d →
      (d.npiv_port.isSome → FCPManager.get_wwpn pool fcp_no = d.npiv_port) ∧
      (d.npiv_port = none → FCPManager.get_wwpn pool fcp_no = d.physical_port)) ∧
    (∀ (pool : Pool) (fcp_no : String),
      poolFind? pool fcp_no = none → FCPManager.get_wwpn pool fcp_no = none) ∧
    (∀ (pool all_fcp_pool : Pool) (fcp_list : List String) (fcp_no : String),
      fcp_no ∈ fcp_list →
      FCPVolumeManager.resolveWwpn pool all_fcp_pool fcp_no = none →
      ("FCP device " ++ fcp_no ++ " has no available WWPN.")
        ∈ (FCPVolumeManager.resolveWwpns pool all_fcp_pool fcp_list).2.2) ∧
    (∀ (ctx : Ctx) (ms : MgrState) (assigner_id : String) (reserve : Bool)
      (ms1 : MgrState) (muts : List Mut),
      ctx.lpar_name ≠ "" →
      FCPManager.init_fcp ctx ms = .ok (ms1, muts) →
      ∃ out, FCPVolumeManager.get_volume_connector ctx ms assigner_id reserve
        = .ok out) := by
  refine ⟨?_, ?_, ?_, ?_⟩
  · intro pool fcp_no d hfind
    constructor
    · intro hn
      rcases hnp : d.npiv_port with _ | w
      · rw [hnp] at hn; cases hn
      · simp [FCPManager.get_wwpn, hfind, hnp]
    · intro hn
      simp [FCPManager.get_wwpn, hfind, hn]
  · intro pool fcp_no hfind
    simp [FCPManager.get_wwpn, hfind]
  · intro pool all_fcp_pool fcp_list fcp_no hmem hnone
    rw [FCPVolumeManager.resolveWwpns]
    generalize hacc : (([], [], []) :
      List String × List (Option String × Option String) × List String) = acc
    clear hacc
    induction fcp_list generalizing acc with
    | nil => cases hmem
    | cons f rest ih =>
      rw [FCPVolumeManager.resolveWwpnsGo]
      by_cases hf : fcp_no = f
      · subst hf
        simp only [hnone]
        apply resolveWwpnsGo_errors_mono
        simp
      · cases hw : FCPVolumeManager.resolveWwpn pool all_fcp_pool f with
        | none =>
          simp only [hw]
          exact ih (by
            rcases List.mem_cons.mp hmem with hh | hh
            · exact absurd hh hf
            · exact hh) _
        | some w =>
          simp only [hw]
          exact ih (by
            rcases List.mem_cons.mp hmem with hh | hh
            · exact absurd hh hf
            · exact hh) _
  · intro ctx ms assigner_id reserve ms1 muts hlp hinit
    rw [FCPVolumeManager.get_volume_connector, if_neg hlp, hinit]
    simp only
    rcases hav : FCPManager.get_available_fcp ctx ms1.store assigner_id reserve
      with ⟨st2, fl⟩
    by_cases h1 : fl.isEmpty
    · rw [if_pos h1]
      exact ⟨_, rfl⟩
    · rw [if_neg h1]
      rcases hres : FCPVolumeManager.resolveWwpns ms1.fcp_pool
        (FCPManager.get_all_fcp_pool (ctx.free_fcp_info ++ ctx.active_fcp_info)) fl
        with ⟨w, p, e⟩
      simp only
      by_cases h2 : w.isEmpty
      · rw [if_pos h2]
        exact ⟨_, rfl⟩
      · rw [if_neg h2]
        exact ⟨_, rfl⟩

/-- Witness for C8: `devBoth` resolves to its NPIV port, `devPhysOnly`
to its physical port, the WWPN-less `devNoWwpn` produces the error
message, and `get_volume_connector` over `c8Ms` succeeds (no exception)
while reporting it. -/
theorem C8_wwpn_precedence_and_reporting_witness :
    (poolFind? [("1c00", devBoth)] "1c00" = some devBoth ∧
      FCPManager.get_wwpn [("1c00", devBoth)] "1c00" = devBoth.npiv_port) ∧
    (poolFind? [("1d00", devPhysOnly)] "1d00" = some devPhysOnly ∧
      FCPManager.get_wwpn [("1d00", devPhysOnly)] "1d00" = devPhysOnly.physical_port) ∧
    (FCPVolumeManager.resolveWwpn [("1a00", devNoWwpn)] [] "1a00" = none ∧
      "FCP device 1a00 has no available WWPN."
        ∈ (FCPVolumeManager.resolveWwpns [("1a00", devNoWwpn)] [] ["1a00"]).2.2) ∧
    (∃ out, FCPVolumeManager.get_volume_connector quietCtx c8Ms "" false = .ok out) := by
  refine ⟨⟨by rfl, ?_⟩, ⟨by rfl, ?_⟩, ⟨by rfl, ?_⟩, ?_⟩
  · exact ((C8_wwpn_precedence_and_reporting.1 _ _ devBoth (by rfl)).1 (by rfl))
  · exact ((C8_wwpn_precedence_and_reporting.1 _ _ devPhysOnly (by rfl)).2 (by rfl))
  · exact C8_wwpn_precedence_and_reporting.2.2.1 [("1a00", devNoWwpn)] [] ["1a00"]
      "1a00" (by decide) (by rfl)
  · exact C8_wwpn_precedence_and_reporting.2.2.2 quietCtx c8Ms "" false c8Ms []
      (by decide) (by rfl)

/-- Counterexample to **C1** as stated: device `1a00` is reserved with
zero connections before the attach; the dedicate step fails; after the
rollback completes the connection count is restored but the reservation
flag is `false`, not its pre-attach value `true` (the rollback
unreserves every candidate device without connections,
volumeop.py:794-799). -/
theorem C1_counterexample_reservation_cleared :
    Store.is_reserved reservedIdleStore "1a00" = true ∧
    Store.get_connections_from_fcp reservedIdleStore "1a00" = 0 ∧
    (FCPVolumeManager._attach c1Ctx c1Ms ["1a00"] "USER1" false).raised = true ∧
    Store.get_connections_from_fcp
      (FCPVolumeManager._attach c1Ctx c1Ms ["1a00"] "USER1" false).ms.store "1a00" = 0 ∧
    Store.is_reserved
      (FCPVolumeManager._attach c1Ctx c1Ms ["1a00"] "USER1" false).ms.store "1a00"
      = false := by
  refine ⟨rfl, rfl, ?_, ?_, ?_⟩ <;> decide

/-- **C1 (amended)** — when pool initialization succeeds without
touching the store and the attach fails at the dedicate or
guest-configure step, the rollback restores every requested device's
connection count to its pre-attach value and re-raises; the reservation
flag is restored for devices whose pre-attach connection count was
nonzero, while devices with a zero pre-attach count end unreserved
(their speculative reservation is cleared). -/
theorem C1_attach_rollback_amended :
    ∀ (ctx : Ctx) (ms ms1 : MgrState) (muts : List Mut)
      (fcp_list : List String) (assigner_id : String),
    FCPManager.init_fcp ctx ms = .ok (ms1, muts) →
    ms1.store = ms.store →
    ((FCPVolumeManager.dedicateLoop ctx assigner_id
        (FCPVolumeManager.addLoop assigner_id fcp_list ms.store).2 fcp_list).2 = false
      ∨ ctx.add_disks_ok = false) →
    (FCPVolumeManager._attach ctx ms fcp_list assigner_id false).raised = true ∧
    ∀ fcp ∈ fcp_list,
      Store.get_connections_from_fcp
          (FCPVolumeManager._attach ctx ms fcp_list assigner_id false).ms.store fcp
        = Store.get_connections_from_fcp ms.store fcp ∧
      (Store.get_connections_from_fcp ms.store fcp ≠ 0 →
        Store.is_reserved
            (FCPVolumeManager._attach ctx ms fcp_list assigner_id false).ms.store fcp
          = Store.is_reserved ms.store fcp) ∧
      (Store.get_connections_from_fcp ms.store fcp = 0 →
        Store.is_reserved
            (FCPVolumeManager._attach ctx ms fcp_list assigner_id false).ms.store fcp
          = false) := by
  intro ctx ms ms1 muts fcp_list assigner_id hinit hstore hfail
  rcases hA : FCPVolumeManager.addLoop assigner_id fcp_list ms.store with ⟨st2, fcp_status⟩
  have hA' : FCPVolumeManager.addLoop assigner_id fcp_list ms1.store = (st2, fcp_status) := by
    rw [hstore, hA]
  rcases hDed : FCPVolumeManager.dedicateLoop ctx assigner_id fcp_status fcp_list
    with ⟨dedicate_acts, dok⟩
  rcases hR : FCPVolumeManager._rollback_dedicated_fcp st2 fcp_list assigner_id fcp_list
    with ⟨st4, racts⟩
  have hkey : (FCPVolumeManager._attach ctx ms fcp_list assigner_id false).ms.store = st4 ∧
      (FCPVolumeManager._attach ctx ms fcp_list assigner_id false).raised = true := by
    rw [FCPVolumeManager._attach, hinit]
    simp only
    rw [hA']
    simp only [Bool.false_eq_true, if_false]
    rw [hDed]
    simp only
    by_cases hdok : dok = true
    · have hdisks : ctx.add_disks_ok = false := by
        rcases hfail with hf1 | hf2
        · rw [hA, hDed] at hf1
          simp only at hf1
          rw [hf1] at hdok
          simp at hdok
        · exact hf2
      rw [hdok, hdisks]
      simp only [if_true, Bool.false_eq_true, if_false]
      rw [hR]
      exact ⟨rfl, trivial⟩
    · have hdf : dok = false := by simpa using hdok
      rw [hdf]
      simp only [Bool.false_eq_true, if_false]
      rw [hR]
      exact ⟨rfl, trivial⟩
  rcases hRD : FCPVolumeManager.rollbackDecreaseLoop assigner_id fcp_list st2
    with ⟨st3, dacts⟩
  have hst4 : st4 = FCPVolumeManager.rollbackUnreserveLoop fcp_list st3 := by
    have : FCPVolumeManager._rollback_dedicated_fcp st2 fcp_list assigner_id fcp_list
        = (FCPVolumeManager.rollbackUnreserveLoop fcp_list st3, dacts) := by
      rw [FCPVolumeManager._rollback_dedicated_fcp, hRD]
    rw [this] at hR
    exact (Prod.mk.injEq _ _ _ _ ▸ hR).1.symm
  refine ⟨hkey.2, ?_⟩
  intro fcp hmem
  obtain ⟨hp2, hc2, hr2⟩ := addLoopGo_spec assigner_id fcp fcp_list ms.store []
  rw [show FCPVolumeManager.addLoopGo assigner_id fcp_list (ms.store, []) = (st2, fcp_status)
    from hA] at hp2 hc2 hr2
  simp only at hp2 hc2 hr2
  obtain ⟨hp3, hc3, hr3⟩ := rollbackDecreaseLoop_spec assigner_id fcp fcp_list st2 (by
    intro hp
    rw [hc2]
    rw [hp2] at hp
    rw [if_pos hp]
    omega)
  rw [hRD] at hp3 hc3 hr3
  simp only at hp3 hc3 hr3
  obtain ⟨hp4, hc4, hr4⟩ := rollbackUnreserveLoop_spec fcp fcp_list st3
  rw [← hst4] at hp4 hc4 hr4
  have hconnfinal : Store.get_connections_from_fcp st4 fcp
      = Store.get_connections_from_fcp ms.store fcp := by
    rw [hc4, hc3, hc2]
    rcases hfr : Store.find? ms.store fcp with _ | r
    · have h0 : Store.get_connections_from_fcp ms.store fcp = 0 := by
        simp [Store.get_connections_from_fcp, hfr]
      rw [h0]
      simp
    · simp
  refine ⟨by rw [hkey.1, hconnfinal], ?_, ?_⟩
  · intro hne
    rw [hkey.1, hr4, if_neg ?_, hr3, hr2]
    rintro ⟨_, hz⟩
    rw [hc3, hc2] at hz
    rcases hfr : Store.find? ms.store fcp with _ | r
    · exact hne (by simp [Store.get_connections_from_fcp, hfr])
    · rw [hfr] at hz
      simp at hz
      exact hne (by
        rw [store_get_connections_some _ _ _ hfr]
        rw [store_get_connections_some _ _ _ hfr] at hz
        omega)
  · intro hzero
    rw [hkey.1, hr4, if_pos ?_]
    refine ⟨hmem, ?_⟩
    rw [hc3, hc2, hzero]
    rcases hfr : Store.find? ms.store fcp with _ | r <;> simp

/-- Witness for the amended C1: device `1b00` has one pre-attach
connection and is reserved; guest configuration fails; rollback restores
count 1 and the reservation flag, and the error is raised. -/
theorem C1_attach_rollback_amended_witness :
    FCPManager.init_fcp c1wCtx c1wMs = .ok (c1wMs, []) ∧
    c1wCtx.add_disks_ok = false ∧
    (FCPVolumeManager._attach c1wCtx c1wMs ["1b00"] "USER1" false).raised = true ∧
    ∀ fcp ∈ ["1b00"],
      Store.get_connections_from_fcp
          (FCPVolumeManager._attach c1wCtx c1wMs ["1b00"] "USER1" false).ms.store fcp
        = Store.get_connections_from_fcp c1wMs.store fcp ∧
      (Store.get_connections_from_fcp c1wMs.store fcp ≠ 0 →
        Store.is_reserved
            (FCPVolumeManager._attach c1wCtx c1wMs ["1b00"] "USER1" false).ms.store fcp
          = Store.is_reserved c1wMs.store fcp) ∧
      (Store.get_connections_from_fcp c1wMs.store fcp = 0 →
        Store.is_reserved
            (FCPVolumeManager._attach c1wCtx c1wMs ["1b00"] "USER1" false).ms.store fcp
          = false) := by
  have H := C1_attach_rollback_amended c1wCtx c1wMs c1wMs [] ["1b00"] "USER1"
    rfl rfl (Or.inr rfl)
  exact ⟨rfl, rfl, H.1, H.2⟩

/-! ### Synchronization groundwork (claim C3) -/

/-- Keys of a store. -/
theorem store_keys_nodup_find (st : Store) (k : String) (r : FcpRec)
    (hnd : (st.map Prod.fst).Nodup) (hmem : (k, r) ∈ st) :
    Store.find? st k = some r := by
  induction st with
  | nil => cases hmem
  | cons kv t ih =>
    obtain ⟨k0, r0⟩ := kv
    rw [List.map_cons, List.nodup_cons] at hnd
    rcases List.mem_cons.mp hmem with heq | hmem'
    · cases heq
      rw [Store.find?, assocGet_cons, if_pos rfl]
    · have hk0 : k0 ≠ k := by
        intro hh
        subst hh
        exact hnd.1 (List.mem_map.mpr ⟨(k0, r), hmem', rfl⟩)
      rw [Store.find?, assocGet_cons, if_neg hk0]
      exact ih hnd.2 hmem'

theorem store_find_mem (st : Store) (k : String) (r : FcpRec)
    (h : Store.find? st k = some r) : (k, r) ∈ st := by
  induction st with
  | nil => cases h
  | cons kv t ih =>
    obtain ⟨k0, r0⟩ := kv
    rw [Store.find?, assocGet_cons] at h
    by_cases hk : k0 = k
    · rw [if_pos hk] at h
      cases h
      exact hk ▸ List.mem_cons_self _ _
    · rw [if_neg hk] at h
      exact List.mem_cons_of_mem _ (ih h)

theorem store_find_delete_ne (st : Store) (k0 k : String) (h : k ≠ k0) :
    Store.find? (st.delete k0) k = Store.find? st k := by
  induction st with
  | nil => rfl
  | cons kv t ih =>
    obtain ⟨k1, r1⟩ := kv
    rw [Store.delete, List.filter_cons]
    by_cases hk1 : k1 = k0
    · rw [if_neg (by simp [hk1])]
      have heq : List.filter (fun kv => ¬ kv.1 == k0) t = Store.delete t k0 := rfl
      rw [heq, ih, Store.find?_cons,
        if_neg (by rw [hk1]; exact fun hh => h hh.symm)]
    · rw [if_pos (by simpa using hk1)]
      rw [Store.find?_cons, Store.find?_cons]
      by_cases hk : k1 = k
      · rw [if_pos hk, if_pos hk]
      · rw [if_neg hk, if_neg hk]
        exact ih

theorem store_mem_delete (st : Store) (k0 k : String) (r : FcpRec)
    (h : (k, r) ∈ st.delete k0) : (k, r) ∈ st ∧ k ≠ k0 := by
  rw [Store.delete] at h
  have h2 := List.of_mem_filter h
  exact ⟨List.mem_of_mem_filter h, by simpa using h2⟩

theorem store_delete_keys_sublist (st : Store) (k0 : String) :
    ((st.delete k0).map Prod.fst).Sublist (st.map Prod.fst) :=
  List.Sublist.map Prod.fst (List.filter_sublist st)

theorem store_modifyRec_keys (st : Store) (f : String) (g : FcpRec → FcpRec) :
    (st.modifyRec f g).map Prod.fst = st.map Prod.fst := by
  induction st with
  | nil => rfl
  | cons kv t ih =>
    obtain ⟨k, r⟩ := kv
    rw [Store.modifyRec_cons, List.map_cons, List.map_cons, ih]
    by_cases hk : k = f
    · rw [if_pos hk]
    · rw [if_neg hk]

theorem store_mem_modifyRec (st : Store) (f : String) (g : FcpRec → FcpRec)
    (k : String) (r : FcpRec) (h : (k, r) ∈ st.modifyRec f g) :
    ∃ r0, (k, r0) ∈ st ∧ (r = r0 ∨ r = g r0) := by
  rw [Store.modifyRec] at h
  obtain ⟨⟨k1, r1⟩, hmem, heq⟩ := List.mem_map.mp h
  by_cases hk1 : k1 = f
  · rw [if_pos (by simpa using hk1)] at heq
    injection heq with h1 h2
    subst h1
    exact ⟨r1, hmem, Or.inr h2.symm⟩
  · rw [if_neg (by simpa using hk1)] at heq
    injection heq with h1 h2
    subst h1
    exact ⟨r1, hmem, Or.inl h2.symm⟩

theorem store_find_new_ne (st : Store) (f k : String) (p : Nat) (h : k ≠ f) :
    Store.find? (st.new f p) k = Store.find? st k := by
  rw [Store.new]
  by_cases hp : (Store.find? st f).isSome
  · rw [if_pos hp]
  · rw [if_neg hp]
    rw [show Store.find? (st ++ [(f, _)]) k = assocGet (st ++ [(f, _)]) k from rfl,
      assocGet_append]
    rcases hm : Store.find? st k with _ | r
    · rw [show assocGet st k = Store.find? st k from rfl, hm]
      have hfk : ¬ f = k := fun hh => h hh.symm
      simp [assocGet_cons, hfk, assocGet_nil]
    · rw [show assocGet st k = Store.find? st k from rfl, hm]

theorem store_mem_new (st : Store) (f : String) (p : Nat) (k : String) (r : FcpRec)
    (h : (k, r) ∈ st.new f p) :
    (k, r) ∈ st ∨ (k = f ∧
      r = { assigner_id := "", reserved := false, connections := 0, path := p }) := by
  rw [Store.new] at h
  by_cases hp : (Store.find? st f).isSome
  · rw [if_pos hp] at h
    exact Or.inl h
  · rw [if_neg hp] at h
    rcases List.mem_append.mp h with h1 | h1
    · exact Or.inl h1
    · rcases List.mem_singleton.mp h1 with heq
      cases heq
      exact Or.inr ⟨rfl, rfl⟩

theorem store_new_keys_nodup (st : Store) (f : String) (p : Nat)
    (hnd : (st.map Prod.fst).Nodup) : ((st.new f p).map Prod.fst).Nodup := by
  rw [Store.new]
  by_cases hp : (Store.find? st f).isSome
  · rw [if_pos hp]
    exact hnd
  · rw [if_neg hp]
    rw [List.map_append]
    simp only [List.map_cons, List.map_nil]
    rw [List.nodup_append]
    refine ⟨hnd, List.nodup_singleton f, ?_⟩
    intro a ha hb
    have hab : a = f := List.mem_singleton.mp hb
    rw [hab] at ha
    obtain ⟨⟨k1, r1⟩, hmem, heq⟩ := List.mem_map.mp ha
    simp only at heq
    rw [heq] at hmem
    have hfound : Store.find? st f = some r1 :=
      store_keys_nodup_find st f r1 hnd hmem
    rw [hfound] at hp
    exact hp (by simp)


theorem store_find_new_self (st : Store) (f : String) (p : Nat)
    (h : Store.find? st f = none) :
    Store.find? (st.new f p) f =
      some { assigner_id := "", reserved := false, connections := 0, path := p } := by
  rw [Store.new, if_neg (by rw [h]; simp)]
  show assocGet _ _ = _
  rw [assocGet_append]
  rw [show assocGet st f = Store.find? st f from rfl, h]
  simp [assocGet_cons]

theorem settled_congr (pool : Pool) (p : Nat) (f : String) (st st' : Store)
    (hfind : Store.find? st' f = Store.find? st f)
    (h : settled pool p f st) : settled pool p f st' := by
  rcases h with h | ⟨h1, h2⟩
  · exact Or.inl h
  · refine Or.inr ⟨?_, ?_⟩
    · intro rec hrec
      rw [hfind] at hrec
      exact h1 rec hrec
    · intro hnone
      rw [hfind] at hnone
      exact h2 hnone

theorem syncFcp_cases (pool : Pool) (p : Nat) (st : Store) (g : String) :
    FCPManager.syncFcp pool p st g = (st, []) ∨
    FCPManager.syncFcp pool p st g =
      (Store.update_path_of_fcp st g p, [Mut.updatePath g p]) ∨
    (Store.find? st g = none ∧ pyLower g ∈ poolKeys pool ∧
      FCPManager.syncFcp pool p st g = (Store.new st g p, [Mut.new g p])) := by
  have hsf : FCPManager.syncFcp pool p st g = FCPManager.syncFcp pool p st g := rfl
  nth_rewrite 2 [FCPManager.syncFcp] at hsf
  split at hsf
  · rename_i hmem
    split at hsf
    · rename_i heq
      rw [FCPManager._add_fcp] at hsf
      split at hsf
      · rename_i d hd
        split at hsf
        · rename_i hds
          split at hsf
          · exact Or.inl hsf
          · exact Or.inr (Or.inr ⟨heq, hmem, hsf⟩)
        · exact Or.inl hsf
      · exact Or.inl hsf
    · rename_i rec heq
      split at hsf
      · exact Or.inr (Or.inl hsf)
      · exact Or.inl hsf
  · exact Or.inl hsf

theorem syncFcp_settled_noop (pool : Pool) (p : Nat) (st : Store) (f : String)
    (h : settled pool p f st) :
    FCPManager.syncFcp pool p st f = (st, []) := by
  have hsf : FCPManager.syncFcp pool p st f = FCPManager.syncFcp pool p st f := rfl
  nth_rewrite 2 [FCPManager.syncFcp] at hsf
  split at hsf
  · rename_i hmem
    rcases h with h | ⟨hsome, hnone⟩
    · exact absurd hmem h
    · split at hsf
      · rename_i heq
        have hna := hnone heq
        rw [FCPManager._add_fcp] at hsf
        split at hsf
        · rename_i d hd
          split at hsf
          · rename_i hds
            exact absurd hds (hna d hd)
          · exact hsf
        · exact hsf
      · rename_i rec heq
        split at hsf
        · rename_i hp
          exact absurd (hsome rec heq) hp
        · exact hsf
  · exact hsf

theorem syncFcp_post_settled (pool : Pool) (p : Nat) (st : Store) (f : String) :
    settled pool p f (FCPManager.syncFcp pool p st f).1 := by
  by_cases hmem : pyLower f ∈ poolKeys pool
  · have hsf : FCPManager.syncFcp pool p st f = FCPManager.syncFcp pool p st f := rfl
    nth_rewrite 2 [FCPManager.syncFcp] at hsf
    rw [if_pos hmem] at hsf
    split at hsf
    · rename_i heq
      rw [FCPManager._add_fcp] at hsf
      split at hsf
      · rename_i d hd
        split at hsf
        · rename_i hds
          split at hsf
          · rename_i hex
            rw [heq] at hex
            simp at hex
          · rw [hsf]
            refine Or.inr ⟨?_, ?_⟩
            · intro rec hrec
              have hrec' : Store.find? (Store.new st f p) f = some rec := hrec
              rw [store_find_new_self st f p heq] at hrec'
              injection hrec' with h1
              rw [← h1]
            · intro hnone
              have hnone' : Store.find? (Store.new st f p) f = none := hnone
              rw [store_find_new_self st f p heq] at hnone'
              cases hnone'
        · rename_i hds
          rw [hsf]
          refine Or.inr ⟨?_, ?_⟩
          · intro rec hrec
            have hrec' : Store.find? st f = some rec := hrec
            rw [heq] at hrec'
            cases hrec'
          · intro _ d' hd'
            rw [hd] at hd'
            injection hd' with h1
            rw [← h1]
            exact hds
      · rename_i hd
        rw [hsf]
        refine Or.inr ⟨?_, ?_⟩
        · intro rec hrec
          have hrec' : Store.find? st f = some rec := hrec
          rw [heq] at hrec'
          cases hrec'
        · intro _ d' hd'
          rw [hd] at hd'
          cases hd'
    · rename_i rec heq
      split at hsf
      · rename_i hp
        rw [hsf]
        refine Or.inr ⟨?_, ?_⟩
        · intro rec' hrec'
          have hx : Store.find? (Store.update_path_of_fcp st f p) f = some rec' := hrec'
          rw [Store.update_path_of_fcp, Store.find?_modifyRec_self, heq] at hx
          simp only [Option.map_some'] at hx
          injection hx with h1
          rw [← h1]
        · intro hnone
          have hx : Store.find? (Store.update_path_of_fcp st f p) f = none := hnone
          rw [Store.update_path_of_fcp, Store.find?_modifyRec_self, heq] at hx
          simp at hx
      · rename_i hp
        rw [hsf]
        refine Or.inr ⟨?_, ?_⟩
        · intro rec' hrec'
          have hx : Store.find? st f = some rec' := hrec'
          rw [heq] at hx
          injection hx with h1
          rw [← h1]
          exact not_not.mp hp
        · intro hnone
          have hx : Store.find? st f = none := hnone
          rw [heq] at hx
          cases hx
  · exact Or.inl hmem

theorem syncFcp_find_ne (pool : Pool) (p : Nat) (st : Store) (g f : String)
    (h : f ≠ g) :
    Store.find? (FCPManager.syncFcp pool p st g).1 f = Store.find? st f := by
  rcases syncFcp_cases pool p st g with hc | hc | ⟨_, _, hc⟩
  · rw [hc]
  · rw [hc]
    show Store.find? (Store.update_path_of_fcp st g p) f = Store.find? st f
    rw [Store.update_path_of_fcp]
    exact Store.find?_modifyRec_ne st g f _ h
  · rw [hc]
    exact store_find_new_ne st g f p h

theorem syncFcp_keys_nodup (pool : Pool) (p : Nat) (st : Store) (g : String)
    (hnd : (st.map Prod.fst).Nodup) :
    (((FCPManager.syncFcp pool p st g).1).map Prod.fst).Nodup := by
  rcases syncFcp_cases pool p st g with hc | hc | ⟨_, _, hc⟩
  · rw [hc]
    exact hnd
  · rw [hc]
    show ((Store.update_path_of_fcp st g p).map Prod.fst).Nodup
    rw [Store.update_path_of_fcp, store_modifyRec_keys]
    exact hnd
  · rw [hc]
    exact store_new_keys_nodup st g p hnd

theorem syncFcp_orphanReserved (pool : Pool) (p : Nat) (st : Store) (g : String)
    (ho : orphanReserved (poolKeys pool) st) :
    orphanReserved (poolKeys pool) (FCPManager.syncFcp pool p st g).1 := by
  rcases syncFcp_cases pool p st g with hc | hc | ⟨_, hmem, hc⟩
  · rw [hc]
    exact ho
  · rw [hc]
    intro k r hkr hk
    have hkr' : (k, r) ∈ Store.update_path_of_fcp st g p := hkr
    rw [Store.update_path_of_fcp] at hkr'
    obtain ⟨r0, hr0, hor⟩ := store_mem_modifyRec st g _ k r hkr'
    rcases hor with h2 | h2 <;> rw [h2]
    · exact ho k r0 hr0 hk
    · simpa using ho k r0 hr0 hk
  · rw [hc]
    intro k r hkr hk
    have hkr' : (k, r) ∈ Store.new st g p := hkr
    rcases store_mem_new st g p k r hkr' with hmem' | ⟨rfl, rfl⟩
    · exact ho k r hmem' hk
    · exact absurd hmem hk

theorem syncFcp_settled_preserve (pool : Pool) (p p' : Nat) (st : Store)
    (g f : String) (h : settled pool p f st) (himp : g = f → p' = p) :
    settled pool p f (FCPManager.syncFcp pool p' st g).1 := by
  by_cases hg : g = f
  · subst hg
    have hp := himp rfl
    subst hp
    rw [syncFcp_settled_noop pool p' st g h]
    exact h
  · exact settled_congr pool p f st (FCPManager.syncFcp pool p' st g).1
      (syncFcp_find_ne pool p' st g f (fun hh => hg hh.symm)) h

theorem syncPathList_cons (pool : Pool) (p : Nat) (f : String)
    (rest : List String) (st : Store) :
    FCPManager.syncPathList pool p (f :: rest) st =
      ((FCPManager.syncPathList pool p rest (FCPManager.syncFcp pool p st f).1).1,
       (FCPManager.syncFcp pool p st f).2 ++
       (FCPManager.syncPathList pool p rest (FCPManager.syncFcp pool p st f).1).2) := rfl

theorem syncPathList_settled_noop (pool : Pool) (p : Nat) (fcps : List String) :
    ∀ st : Store, (∀ f ∈ fcps, settled pool p f st) →
    FCPManager.syncPathList pool p fcps st = (st, []) := by
  induction fcps with
  | nil => intro st _; rfl
  | cons f rest ih =>
    intro st h
    rw [syncPathList_cons, syncFcp_settled_noop pool p st f (h f (List.mem_cons_self f rest))]
    dsimp only
    rw [ih st (fun f' hf' => h f' (List.mem_cons_of_mem f hf'))]
    rfl

theorem syncPathList_settled_preserve (pool : Pool) (p p' : Nat)
    (fcps : List String) (f : String) :
    ∀ st : Store, settled pool p f st → (f ∈ fcps → p' = p) →
    settled pool p f (FCPManager.syncPathList pool p' fcps st).1 := by
  induction fcps with
  | nil => intro st h _; exact h
  | cons g rest ih =>
    intro st h himp
    rw [syncPathList_cons]
    dsimp only
    exact ih (FCPManager.syncFcp pool p' st g).1
      (syncFcp_settled_preserve pool p p' st g f h
        (fun hg => himp (by rw [← hg]; exact List.mem_cons_self g rest)))
      (fun hf => himp (List.mem_cons_of_mem g hf))

theorem syncPathList_settled_post (pool : Pool) (p : Nat)
    (fcps : List String) (f : String) :
    ∀ st : Store, f ∈ fcps →
    settled pool p f (FCPManager.syncPathList pool p fcps st).1 := by
  induction fcps with
  | nil => intro st h; cases h
  | cons g rest ih =>
    intro st hmem
    rw [syncPathList_cons]
    dsimp only
    by_cases hg : f ∈ rest
    · exact ih _ hg
    · have hfg : f = g := by
        rcases List.mem_cons.mp hmem with h | h
        · exact h
        · exact absurd h hg
      subst hfg
      exact syncPathList_settled_preserve pool p p rest f _
        (syncFcp_post_settled pool p st f) (fun _ => rfl)

theorem syncPathList_keys_nodup (pool : Pool) (p : Nat) (fcps : List String) :
    ∀ st : Store, (st.map Prod.fst).Nodup →
    (((FCPManager.syncPathList pool p fcps st).1).map Prod.fst).Nodup := by
  induction fcps with
  | nil => intro st h; exact h
  | cons g rest ih =>
    intro st h
    rw [syncPathList_cons]
    dsimp only
    exact ih _ (syncFcp_keys_nodup pool p st g h)

theorem syncPathList_orphanReserved (pool : Pool) (p : Nat) (fcps : List String) :
    ∀ st : Store, orphanReserved (poolKeys pool) st →
    orphanReserved (poolKeys pool) (FCPManager.syncPathList pool p fcps st).1 := by
  induction fcps with
  | nil => intro st h; exact h
  | cons g rest ih =>
    intro st h
    rw [syncPathList_cons]
    dsimp only
    exact ih _ (syncFcp_orphanReserved pool p st g h)

theorem syncMapping_cons (pool : Pool) (p : Nat) (fcps : List String)
    (rest : List (Nat × List String)) (st : Store) :
    FCPManager.syncMapping pool ((p, fcps) :: rest) st =
      ((FCPManager.syncMapping pool rest (FCPManager.syncPathList pool p fcps st).1).1,
       (FCPManager.syncPathList pool p fcps st).2 ++
       (FCPManager.syncMapping pool rest (FCPManager.syncPathList pool p fcps st).1).2) := rfl

theorem syncMapping_settled_noop (pool : Pool) (mapping : List (Nat × List String)) :
    ∀ st : Store, (∀ p l, (p, l) ∈ mapping → ∀ f ∈ l, settled pool p f st) →
    FCPManager.syncMapping pool mapping st = (st, []) := by
  induction mapping with
  | nil => intro st _; rfl
  | cons e rest ih =>
    obtain ⟨p, l⟩ := e
    intro st h
    rw [syncMapping_cons,
      syncPathList_settled_noop pool p l st (h p l (List.mem_cons_self _ _))]
    dsimp only
    rw [ih st (fun p' l' h' => h p' l' (List.mem_cons_of_mem _ h'))]
    rfl

theorem syncMapping_settled_preserve (pool : Pool) (p : Nat) (f : String)
    (mapping : List (Nat × List String)) :
    ∀ st : Store, settled pool p f st →
    (∀ p' l', (p', l') ∈ mapping → f ∈ l' → p' = p) →
    settled pool p f (FCPManager.syncMapping pool mapping st).1 := by
  induction mapping with
  | nil => intro st h _; exact h
  | cons e rest ih =>
    obtain ⟨p', l'⟩ := e
    intro st h hcond
    rw [syncMapping_cons]
    dsimp only
    exact ih _ (syncPathList_settled_preserve pool p p' l' f st h
        (fun hf => hcond p' l' (List.mem_cons_self _ _) hf))
      (fun p'' l'' h'' hf => hcond p'' l'' (List.mem_cons_of_mem _ h'') hf)

theorem syncMapping_settled_post (pool : Pool) (p : Nat) (f : String) :
    ∀ (mapping : List (Nat × List String)) (st : Store),
    (∃ l, (p, l) ∈ mapping ∧ f ∈ l) →
    (∀ p₁ l₁ p₂ l₂, (p₁, l₁) ∈ mapping → (p₂, l₂) ∈ mapping →
      f ∈ l₁ → f ∈ l₂ → p₁ = p₂) →
    settled pool p f (FCPManager.syncMapping pool mapping st).1 := by
  intro mapping
  induction mapping with
  | nil =>
    intro st hex _
    obtain ⟨l, hl, _⟩ := hex
    cases hl
  | cons e rest ih =>
    obtain ⟨p', l'⟩ := e
    intro st hex huniq
    rw [syncMapping_cons]
    dsimp only
    obtain ⟨l, hl, hfl⟩ := hex
    rcases List.mem_cons.mp hl with heq | hrest
    · injection heq with h1 h2
      subst h1
      subst h2
      exact syncMapping_settled_preserve pool p f rest _
        (syncPathList_settled_post pool p l f st hfl)
        (fun p'' l'' h'' hf'' => huniq p'' l'' p l (List.mem_cons_of_mem _ h'')
          (List.mem_cons_self _ _) hf'' hfl)
    · exact ih _ ⟨l, hrest, hfl⟩
        (fun p₁ l₁ p₂ l₂ h1 h2 hf1 hf2 => huniq p₁ l₁ p₂ l₂
          (List.mem_cons_of_mem _ h1) (List.mem_cons_of_mem _ h2) hf1 hf2)

theorem syncMapping_keys_nodup (pool : Pool) (mapping : List (Nat × List String)) :
    ∀ st : Store, (st.map Prod.fst).Nodup →
    (((FCPManager.syncMapping pool mapping st).1).map Prod.fst).Nodup := by
  induction mapping with
  | nil => intro st h; exact h
  | cons e rest ih =>
    obtain ⟨p, l⟩ := e
    intro st h
    rw [syncMapping_cons]
    dsimp only
    exact ih _ (syncPathList_keys_nodup pool p l st h)

theorem syncMapping_orphanReserved (pool : Pool) (mapping : List (Nat × List String)) :
    ∀ st : Store, orphanReserved (poolKeys pool) st →
    orphanReserved (poolKeys pool) (FCPManager.syncMapping pool mapping st).1 := by
  induction mapping with
  | nil => intro st h; exact h
  | cons e rest ih =>
    obtain ⟨p, l⟩ := e
    intro st h
    rw [syncMapping_cons]
    dsimp only
    exact ih _ (syncPathList_orphanReserved pool p l st h)

theorem syncOrphans_cons (keys : List String) (k : String) (r : FcpRec)
    (rest : List (String × FcpRec)) (st : Store) :
    FCPManager.syncOrphans keys ((k, r) :: rest) st =
      if pyLower k ∈ keys then FCPManager.syncOrphans keys rest st
      else ((FCPManager.syncOrphans keys rest (FCPManager._report_orphan_fcp st k).1).1,
            (FCPManager._report_orphan_fcp st k).2 ++
            (FCPManager.syncOrphans keys rest (FCPManager._report_orphan_fcp st k).1).2) := rfl

theorem syncOrphans_reserved_noop (keys : List String) (snapshot : List (String × FcpRec)) :
    ∀ st : Store,
    (∀ k r, (k, r) ∈ snapshot → pyLower k ∉ keys → Store.is_reserved st k = true) →
    FCPManager.syncOrphans keys snapshot st = (st, []) := by
  induction snapshot with
  | nil => intro st _; rfl
  | cons e rest ih =>
    obtain ⟨k, r⟩ := e
    intro st h
    rw [syncOrphans_cons]
    by_cases hk : pyLower k ∈ keys
    · rw [if_pos hk]
      exact ih st (fun k' r' h' hk' => h k' r' (List.mem_cons_of_mem _ h') hk')
    · rw [if_neg hk]
      have hres : Store.is_reserved st k = true := h k r (List.mem_cons_self _ _) hk
      have hrep : FCPManager._report_orphan_fcp st k = (st, []) := by
        rw [FCPManager._report_orphan_fcp, if_neg (by simp [hres])]
      rw [hrep]
      dsimp only
      rw [ih st (fun k' r' h' hk' => h k' r' (List.mem_cons_of_mem _ h') hk')]
      rfl

theorem syncOrphans_keys_nodup (keys : List String) (snapshot : List (String × FcpRec)) :
    ∀ st : Store, (st.map Prod.fst).Nodup →
    (((FCPManager.syncOrphans keys snapshot st).1).map Prod.fst).Nodup := by
  induction snapshot with
  | nil => intro st h; exact h
  | cons e rest ih =>
    obtain ⟨k, r⟩ := e
    intro st h
    rw [syncOrphans_cons]
    by_cases hk : pyLower k ∈ keys
    · rw [if_pos hk]
      exact ih st h
    · rw [if_neg hk]
      dsimp only
      apply ih
      rw [FCPManager._report_orphan_fcp]
      by_cases hres : Store.is_reserved st k = true
      · rw [if_neg (by simp [hres])]
        exact h
      · rw [if_pos hres]
        exact (store_delete_keys_sublist st k).nodup h

theorem syncOrphans_post (keys : List String) (snapshot : List (String × FcpRec)) :
    ∀ st : Store, (st.map Prod.fst).Nodup →
    (∀ k r, (k, r) ∈ st → pyLower k ∉ keys → r.reserved = true ∨ (k, r) ∈ snapshot) →
    orphanReserved keys (FCPManager.syncOrphans keys snapshot st).1 := by
  induction snapshot with
  | nil =>
    intro st _ hcov k r hmem hk
    rcases hcov k r hmem hk with h | h
    · exact h
    · cases h
  | cons e rest ih =>
    obtain ⟨k0, r0⟩ := e
    intro st hnd hcov
    rw [syncOrphans_cons]
    by_cases hk0 : pyLower k0 ∈ keys
    · rw [if_pos hk0]
      apply ih st hnd
      intro k r hmem hk
      rcases hcov k r hmem hk with h | h
      · exact Or.inl h
      · rcases List.mem_cons.mp h with heq | h'
        · injection heq with h1 h2
          rw [h1] at hk
          exact absurd hk0 hk
        · exact Or.inr h'
    · rw [if_neg hk0]
      dsimp only
      by_cases hres : Store.is_reserved st k0 = true
      · have hrep : FCPManager._report_orphan_fcp st k0 = (st, []) := by
          rw [FCPManager._report_orphan_fcp, if_neg (by simp [hres])]
        rw [hrep]
        dsimp only
        apply ih st hnd
        intro k r hmem hk
        rcases hcov k r hmem hk with h | h
        · exact Or.inl h
        · rcases List.mem_cons.mp h with heq | h'
          · injection heq with h1 h2
            left
            have hfind := store_keys_nodup_find st k r hnd hmem
            have hisr : Store.is_reserved st k = r.reserved := by
              simp [Store.is_reserved, hfind]
            rw [h1] at hisr
            rw [← hisr]
            exact hres
          · exact Or.inr h'
      · have hrep : FCPManager._report_orphan_fcp st k0 =
            (st.delete k0, [Mut.delete k0]) := by
          rw [FCPManager._report_orphan_fcp, if_pos hres]
        rw [hrep]
        dsimp only
        apply ih (st.delete k0) ((store_delete_keys_sublist st k0).nodup hnd)
        intro k r hmem hk
        obtain ⟨hmem', hkne⟩ := store_mem_delete st k0 k r hmem
        rcases hcov k r hmem' hk with h | h
        · exact Or.inl h
        · rcases List.mem_cons.mp h with heq | h'
          · injection heq with h1 h2
            exact absurd h1 hkne
          · exact Or.inr h'

theorem sync_db_fst (pool : Pool) (mapping : List (Nat × List String)) (st : Store) :
    (FCPManager._sync_db_fcp_list pool mapping st).1 =
      (FCPManager.syncMapping pool mapping
        (FCPManager.syncOrphans (poolKeys pool) st st).1).1 := rfl

theorem sync_db_noop (pool : Pool) (mapping : List (Nat × List String)) (st : Store)
    (hres : ∀ k r, (k, r) ∈ st → pyLower k ∉ poolKeys pool →
      Store.is_reserved st k = true)
    (hsettled : ∀ p l, (p, l) ∈ mapping → ∀ f ∈ l, settled pool p f st) :
    FCPManager._sync_db_fcp_list pool mapping st = (st, []) := by
  have hA : FCPManager.syncOrphans (poolKeys pool) st st = (st, []) :=
    syncOrphans_reserved_noop (poolKeys pool) st st hres
  have hB : FCPManager.syncMapping pool mapping st = (st, []) :=
    syncMapping_settled_noop pool mapping st hsettled
  show ((FCPManager.syncMapping pool mapping
          (FCPManager.syncOrphans (poolKeys pool) st st).1).1,
        (FCPManager.syncOrphans (poolKeys pool) st st).2 ++
        (FCPManager.syncMapping pool mapping
          (FCPManager.syncOrphans (poolKeys pool) st st).1).2) = (st, [])
  rw [hA]
  dsimp only
  rw [hB]
  rfl

/-- **C3** (counterexample) — pool synchronization is not idempotent in
general: the configuration string `"0011;0011"` is accepted and expands
to a mapping that puts address `0011` on both path 0 and path 1; with
the matching one-device pool, a second run of `_sync_db_fcp_list`
immediately after a first run still performs two path-index updates. -/
theorem C3_counterexample_second_run_mutates :
    _expand_fcp_list "0011;0011" = .ok dupMapping ∧
    (FCPManager._sync_db_fcp_list poolC3 dupMapping
      (FCPManager._sync_db_fcp_list poolC3 dupMapping stC3).1).2 =
      [Mut.updatePath "0011" 0, Mut.updatePath "0011" 1] ∧
    (FCPManager._sync_db_fcp_list poolC3 dupMapping
      (FCPManager._sync_db_fcp_list poolC3 dupMapping stC3).1).2 ≠ [] := by
  refine ⟨by rfl, by decide, by decide⟩

/-- **C3** (amended) — pool synchronization is idempotent on every
store whose record keys are duplicate-free, provided the path mapping
assigns each device address to at most one path index: running
`_sync_db_fcp_list` a second time immediately after a first run, with
the same pool and mapping, performs no persisted-store mutation. -/
theorem C3_sync_idempotent_amended (pool : Pool)
    (mapping : List (Nat × List String)) (st : Store)
    (hnd : (st.map Prod.fst).Nodup)
    (huniq : ∀ p₁ l₁ p₂ l₂ f, (p₁, l₁) ∈ mapping → (p₂, l₂) ∈ mapping →
      f ∈ l₁ → f ∈ l₂ → p₁ = p₂) :
    (FCPManager._sync_db_fcp_list pool mapping
      (FCPManager._sync_db_fcp_list pool mapping st).1).2 = [] := by
  have hndA := syncOrphans_keys_nodup (poolKeys pool) st st hnd
  have horphA := syncOrphans_post (poolKeys pool) st st hnd
    (fun k r hm _ => Or.inr hm)
  have hndS1 := syncMapping_keys_nodup pool mapping _ hndA
  have horphS1 := syncMapping_orphanReserved pool mapping _ horphA
  have hsettled : ∀ p l, (p, l) ∈ mapping → ∀ f ∈ l,
      settled pool p f (FCPManager.syncMapping pool mapping
        (FCPManager.syncOrphans (poolKeys pool) st st).1).1 := by
    intro p l hpl f hf
    exact syncMapping_settled_post pool p f mapping _ ⟨l, hpl, hf⟩
      (fun p₁ l₁ p₂ l₂ h1 h2 hf1 hf2 => huniq p₁ l₁ p₂ l₂ f h1 h2 hf1 hf2)
  have hres : ∀ k r, (k, r) ∈ (FCPManager.syncMapping pool mapping
        (FCPManager.syncOrphans (poolKeys pool) st st).1).1 →
      pyLower k ∉ poolKeys pool →
      Store.is_reserved ((FCPManager.syncMapping pool mapping
        (FCPManager.syncOrphans (poolKeys pool) st st).1).1) k = true := by
    intro k r hm hk
    have hr := horphS1 k r hm hk
    have hfind := store_keys_nodup_find _ k r hndS1 hm
    simp [Store.is_reserved, hfind, hr]
  have hfix := sync_db_noop pool mapping _ hres hsettled
  rw [sync_db_fst, hfix]

/-- Witness for the amended C3 theorem: a concrete duplicate-free store
and a mapping assigning each address to a single path satisfy the
hypotheses, and the second synchronization run indeed mutates
nothing. -/
theorem C3_sync_idempotent_amended_witness :
    (FCPManager._sync_db_fcp_list poolC3 okMapping
      (FCPManager._sync_db_fcp_list poolC3 okMapping stC3).1).2 = [] := by
  refine C3_sync_idempotent_amended poolC3 okMapping stC3 (by decide) ?_
  intro p₁ l₁ p₂ l₂ f h1 h2 hf1 hf2
  simp only [okMapping, List.mem_cons, List.mem_singleton, Prod.mk.injEq,
    List.not_mem_nil, or_false] at h1 h2
  rcases h1 with ⟨rfl, rfl⟩ | ⟨rfl, rfl⟩ <;>
    rcases h2 with ⟨rfl, rfl⟩ | ⟨rfl, rfl⟩ <;> simp_all

/-- **C10** — classification of a detach failure: a caught remote error
is swallowed (no rollback mutation, no re-raise) exactly when
`rc = 404 ∨ (rc = 204 ∧ rs = 8)` — in particular every `rc = 404` error
regardless of `rs`; any other caught error re-raises after
re-incrementing usage exactly for the rollback-eligible devices (those
whose connection count was nonzero before the initial decrement). -/
theorem C10_detach_failure_classification :
    ∀ (ctx : Ctx) (st : Store) (fcp_list : List String) (assigner_id : String)
      (e : ErrRes),
    ctx.userid_exists = true →
    fcp_list.Nodup →
    FCPVolumeManager.detachCaughtErr ctx assigner_id
      (FCPVolumeManager.decreaseLoop fcp_list st).2.1 fcp_list = some e →
    ((e.rc = 404 ∨ (e.rc = 204 ∧ e.rs = 8)) →
      (FCPVolumeManager._detach ctx st fcp_list assigner_id false false).2.2 = false ∧
      (FCPVolumeManager._detach ctx st fcp_list assigner_id false false).1
        = (FCPVolumeManager.decreaseLoop fcp_list st).1) ∧
    (¬ (e.rc = 404 ∨ (e.rc = 204 ∧ e.rs = 8)) →
      (FCPVolumeManager._detach ctx st fcp_list assigner_id false false).2.2 = true ∧
      ∀ fcp ∈ fcp_list,
        Store.get_connections_from_fcp
            (FCPVolumeManager._detach ctx st fcp_list assigner_id false false).1 fcp
          = Store.get_connections_from_fcp
              (FCPVolumeManager.decreaseLoop fcp_list st).1 fcp
            + (if Store.get_connections_from_fcp st fcp = 0 then 0 else 1)) := by
  intro ctx st fcp_list assigner_id e huid hnd hcaught
  rcases hD : FCPVolumeManager.decreaseLoop fcp_list st with ⟨st1, conns, nrb⟩
  rw [hD] at hcaught
  simp only at hcaught
  have hdet : FCPVolumeManager._detach ctx st fcp_list assigner_id false false
      = (if e.rc = 404 ∨ (e.rc = 204 ∧ e.rs = 8)
         then (st1,
           (match ctx.remove_disks_err with
            | some _ => [Action.configDetach fcp_list assigner_id]
            | none => Action.configDetach fcp_list assigner_id ::
                (FCPVolumeManager.undedicateLoop ctx assigner_id conns fcp_list).1),
           false)
         else (FCPVolumeManager.rollbackConnections assigner_id nrb fcp_list st1,
           (match ctx.remove_disks_err with
            | some _ => [Action.configDetach fcp_list assigner_id]
            | none => Action.configDetach fcp_list assigner_id ::
                (FCPVolumeManager.undedicateLoop ctx assigner_id conns fcp_list).1)
             ++ [Action.configAttach fcp_list assigner_id],
           true)) := by
    rw [FCPVolumeManager._detach, hD]
    simp only [Bool.or_self, Bool.false_eq_true, if_false, huid, not_true_eq_false, hcaught]
  constructor
  · intro hsw
    rw [hdet, if_pos hsw]
    exact ⟨rfl, rfl⟩
  · intro hsw
    rw [hdet, if_neg hsw]
    refine ⟨rfl, ?_⟩
    intro fcp hmem
    simp only
    have hspec := decreaseLoopGo_mem fcp fcp_list st [] [] hmem hnd
    rw [show FCPVolumeManager.decreaseLoopGo fcp_list (st, ([] : List (String × Nat)),
        ([] : List (String × Bool))) = (st1, conns, nrb) from hD] at hspec
    obtain ⟨hfind1, hconns1, hnrb1⟩ := hspec
    have hguard : (assocGet nrb fcp).getD true
        = decide (Store.get_connections_from_fcp st fcp ≠ 0) := by
      rw [hnrb1]; rfl
    have hroll := rollbackConnections_mem assigner_id nrb fcp fcp_list st1 hmem hnd ?_
    · rw [hroll, hguard]
      by_cases hc : Store.get_connections_from_fcp st fcp = 0
      · simp [hc]
      · simp [hc]
    · intro hg
      rw [hguard] at hg
      have hc : Store.get_connections_from_fcp st fcp ≠ 0 := by simpa using hg
      have : (Store.find? st fcp).isSome := by
        rcases hf : Store.find? st fcp with _ | r
        · exact absurd (by simp [Store.get_connections_from_fcp, hf]) hc
        · simp
      rw [hfind1]
      rcases hf : Store.find? st fcp with _ | r
      · rw [hf] at this; exact absurd this (by simp)
      · simp

/-- Witness for C10: in `c10Store` device `1a00` has one connection and
`1b00` none; a `rc = 404, rs = 99` failure is swallowed, while a
`rc = 300` failure re-raises after re-incrementing only `1a00`. -/
theorem C10_detach_failure_classification_witness :
    (FCPVolumeManager.detachCaughtErr c10SwallowCtx "U"
        (FCPVolumeManager.decreaseLoop ["1a00", "1b00"] c10Store).2.1 ["1a00", "1b00"]
        = some ⟨404, 99⟩ ∧
      (FCPVolumeManager._detach c10SwallowCtx c10Store ["1a00", "1b00"] "U" false
        false).2.2 = false) ∧
    (FCPVolumeManager.detachCaughtErr c10RaiseCtx "U"
        (FCPVolumeManager.decreaseLoop ["1a00", "1b00"] c10Store).2.1 ["1a00", "1b00"]
        = some ⟨300, 0⟩ ∧
      (FCPVolumeManager._detach c10RaiseCtx c10Store ["1a00", "1b00"] "U" false
        false).2.2 = true ∧
      Store.get_connections_from_fcp
          (FCPVolumeManager._detach c10RaiseCtx c10Store ["1a00", "1b00"] "U" false
            false).1 "1a00"
        = Store.get_connections_from_fcp
            (FCPVolumeManager.decreaseLoop ["1a00", "1b00"] c10Store).1 "1a00" + 1 ∧
      Store.get_connections_from_fcp
          (FCPVolumeManager._detach c10RaiseCtx c10Store ["1a00", "1b00"] "U" false
            false).1 "1b00"
        = Store.get_connections_from_fcp
            (FCPVolumeManager.decreaseLoop ["1a00", "1b00"] c10Store).1 "1b00") := by
  have hsw := (C10_detach_failure_classification c10SwallowCtx c10Store ["1a00", "1b00"]
    "U" ⟨404, 99⟩ (by rfl) (by decide) (by decide)).1 (Or.inl rfl)
  have hrr := (C10_detach_failure_classification c10RaiseCtx c10Store ["1a00", "1b00"]
    "U" ⟨300, 0⟩ (by rfl) (by decide) (by decide)).2 (by decide)
  refine ⟨⟨by decide, hsw.1⟩, by decide, hrr.1, ?_, ?_⟩
  · have h1 := hrr.2 "1a00" (by decide)
    rwa [if_neg (by decide)] at h1
  · have h2 := hrr.2 "1b00" (by decide)
    rwa [if_pos (by decide)] at h2

/-- **C7** — with `is_root_volume` set, both orchestrators perform only
usage bookkeeping: the guest/hypervisor action trace of `_attach` and of
`_detach` is empty — no dedicate, undedicate, or configure/deconfigure
action is issued for any device. -/
theorem C7_root_volume_short_circuit :
    (∀ (ctx : Ctx) (ms : MgrState) (fcp_list : List String) (assigner_id : String),
      (FCPVolumeManager._attach ctx ms fcp_list assigner_id true).actions = []) ∧
    (∀ (ctx : Ctx) (st : Store) (fcp_list : List String) (assigner_id : String)
      (update_connections_only : Bool),
      (FCPVolumeManager._detach ctx st fcp_list assigner_id true
        update_connections_only).2.1 = []) := by
  constructor
  · intro ctx ms fcp_list assigner_id
    unfold FCPVolumeManager._attach
    cases h : FCPManager.init_fcp ctx ms with
    | error e => rfl
    | ok p => rfl
  · intro ctx st fcp_list assigner_id uco
    unfold FCPVolumeManager._detach
    rfl

end VolumeOp
